import Mathlib

/-!
Verification development for `enrich_with_wikidata_pol.py`, a batch pipeline
that enriches a TSV of literary metadata with Wikidata QIDs for authors and
works.  The script is embedded shallowly: its pure helpers become Lean
functions on `String`/`List Char`, the remote SPARQL endpoint becomes an
oracle `Net`, and the observable side effects (network requests, warning
prints, `time.sleep` pauses, and the per-resolution progress prints) become
an explicit event trace.
-/

set_option maxHeartbeats 1000000

namespace Enrich

/-- A value read from a pandas cell (`dtype=str`): either an actual string or
a missing value (`NaN`, a float).  Models the `isinstance(url, str)` check in
`extract_viaf_id` and the `str(...) == "nan"` check in `main`. -/
inductive PyVal where
  | str (s : String)
  | na
deriving DecidableEq

/-- Python `str(x)` for a pandas cell: a string is itself, `float("nan")`
prints as `"nan"`. -/
def pyStr : PyVal → String
  | .str s => s
  | .na => "nan"

/-- ASCII whitespace as recognised by Python `str.strip()` / regex `\s`
(space, tab, newline, carriage return, vertical tab, form feed; the model
is restricted to the ASCII range). -/
def isPySpace (c : Char) : Bool :=
  c = ' ' || c = '\t' || c = '\n' || c = '\r' || c = '\x0b' || c = '\x0c'

/-- Python `s.strip()`: remove leading and trailing whitespace. -/
def strip (s : String) : String :=
  String.mk (((s.data.dropWhile isPySpace).reverse.dropWhile isPySpace).reverse)

/-- The literal part of the pattern `viaf\.org/viaf/(\d+)` (the dot is
escaped in the regex, so it is the literal text `viaf.org/viaf/`). -/
def viafPat : List Char := "viaf.org/viaf/".data

/-- Attempt to match `viaf\.org/viaf/(\d+)` at the start of `l`: the literal
prefix followed by a maximal nonempty run of digits (greedy `\d+`).
Returns the digit run on success. -/
def viafMatchAt (l : List Char) : Option (List Char) :=
  if viafPat.isPrefixOf l then
    if ((l.drop viafPat.length).takeWhile Char.isDigit).isEmpty then none
    else some ((l.drop viafPat.length).takeWhile Char.isDigit)
  else none

/-- Python `re.search`: try the pattern at every position, leftmost match wins.
(At the very end of the string the pattern, whose literal part is nonempty,
cannot match, so recursion down to `[]` is faithful.) -/
def searchViaf : List Char → Option (List Char)
  | [] => none
  | c :: cs =>
    match viafMatchAt (c :: cs) with
    | some d => some d
    | none => searchViaf cs

/-- Function `extract_viaf_id` (lines 26-31): `None` for non-strings and for inputs
that strip to `""` or `"NA"`; otherwise the digit group of the first match
of `viaf\.org/viaf/(\d+)`, or `None` when the regex does not match. -/
def extract_viaf_id (url : PyVal) : Option String :=
  match url with
  | .na => none
  | .str u =>
    if strip u = "" ∨ strip u = "NA" then none
    else (searchViaf u.data).map String.mk

/-- Subtitle separators of the regex `\s*[:;]\s*`. -/
def isSep (c : Char) : Bool := c = ':' || c = ';'

/-- The characters stripped by `title.strip(" .,")`. -/
def isPunct (c : Char) : Bool := c = ' ' || c = '.' || c = ','

/-- Remove the maximal trailing run of characters satisfying `p`. -/
def rstripP (p : Char → Bool) (l : List Char) : List Char :=
  (l.reverse.dropWhile p).reverse

/-- First piece of `re.split(r"\s*[:;]\s*", title)`: if a separator occurs,
everything before the first `:`/`;` minus the whitespace run immediately
before it (absorbed by the leading `\s*` of the leftmost match); with no
separator the whole string is the (only) piece, unmodified. -/
def firstPiece (l : List Char) : List Char :=
  if l.any isSep then rstripP isPySpace (l.takeWhile (fun c => !isSep c)) else l

/-- Python `s.strip(chars)`: remove matching characters from both ends. -/
def stripBoth (p : Char → Bool) (l : List Char) : List Char :=
  rstripP p (l.dropWhile p)

/-- Function `normalize_title` (lines 34-43): cut at the first subtitle separator,
then `strip(" .,")`. -/
def normalize_title (title : String) : String :=
  String.mk (stripBoth isPunct (firstPiece title.data))

/-- Character-wise expansion underlying `str.replace` with the single
character pattern `"`: each `"` becomes `\"`, all other characters are
kept. -/
def escList : List Char → List Char
  | [] => []
  | c :: cs => if c = '\x22' then '\x5c' :: '\x22' :: escList cs else c :: escList cs

/-- Python `title.replace` of each double quote by backslash-quote —
escaping for interpolation into a SPARQL string literal. -/
def escapeQuotes (s : String) : String := String.mk (escList s.data)

/-- The remote SPARQL service: a query string is answered either with the
list of result bindings or with an error (network, HTTP or decoding
failure — `requests` exceptions, `raise_for_status` and JSON decoding are
all caught by the same `except`).  Every query of the script SELECTs a
single `?item` variable, so a binding is modelled by the value of its
`item` variable (a URI string). -/
abbrev Net := String → Except String (List String)

/-- Observable side effects of one run, in order:
`query q l` — an HTTP request that actually reaches the remote service
(`l` is the diagnostic label passed to `sparql_query`);
`warn m` — the warning printed by `sparql_query` on failure;
`sleep` — `time.sleep(DELAY)`;
`lookupAuthor v` / `lookupWork k` — the progress print emitted in `main`
exactly when a cache miss triggers a remote resolution. -/
inductive Event where
  | query (q l : String)
  | warn (m : String)
  | sleep
  | lookupAuthor (v : String)
  | lookupWork (k : String)
deriving DecidableEq

/-- The message printed by `sparql_query` on failure:
`f"  Warning: SPARQL error{' for ' + label if label else ''}: {e}"`. -/
def warnMsg (label e : String) : String :=
  "  Warning: SPARQL error" ++ (if label = "" then "" else " for " ++ label) ++ ": " ++ e

/-- Function `sparql_query` (lines 46-59): issue the request; on success return the
bindings, on any failure print a warning and return `[]`.  The function is
total: a failed query is never fatal. -/
def sparql_query (net : Net) (query label : String) : List String × List Event :=
  match net query with
  | .ok bs => (bs, [Event.query query label])
  | .error e => ([], [Event.query query label, Event.warn (warnMsg label e)])

/-- Python `uri.rsplit` with separator `/` and count 1, last element: the part after the last `/`, or the whole
string when there is no `/`. -/
def lastSegment (uri : String) : String :=
  String.mk ((uri.data.reverse.takeWhile (fun c => c ≠ '/')).reverse)

/-- Function `first_qid` (lines 62-66): QID of the first binding, if any.  (The
script only ever queries the `item` variable; a binding is modelled by that
variable's value.) -/
def first_qid (bindings : List String) : Option String :=
  match bindings with
  | [] => none
  | b :: _ => some (lastSegment b)

/-- Configuration `LABEL_LANG = "pl"`. -/
def LABEL_LANG : String := "pl"

/-- The f-string of `viaf_to_wikidata` (lines 71-75). -/
def viafQueryStr (viaf_id : String) : String :=
  "\n    SELECT ?item WHERE \x7b\n      ?item wdt:P214 \x22" ++ viaf_id ++
    "\x22 .\n    \x7d LIMIT 1\n    "

/-- Function `viaf_to_wikidata` (lines 69-76). -/
def viaf_to_wikidata (net : Net) (viaf_id : String) : Option String × List Event :=
  let r := sparql_query net (viafQueryStr viaf_id) viaf_id
  (first_qid r.1, r.2)

/-- The author-constrained query f-string (lines 97-102). -/
def authorQueryStr (escaped author_qid : String) : String :=
  "\n        SELECT ?item WHERE \x7b\n          ?item rdfs:label \x22" ++ escaped ++
    "\x22@" ++ LABEL_LANG ++ " ;\n                wdt:P50 wd:" ++ author_qid ++
    " .\n        \x7d LIMIT 1\n        "

/-- The type-scoped label query f-string for the normalized title
(lines 108-113; the trailing `#`-comment is part of the f-string and hence
of the query text sent to the service). -/
def typeQueryStr (escaped : String) : String :=
  "\n    SELECT ?item WHERE \x7b\n      ?item rdfs:label \x22" ++ escaped ++
    "\x22@" ++ LABEL_LANG ++
    " .\n      ?item wdt:P31/wdt:P279* wd:Q7725634 .   # instance of (subclass of) written work\n    \x7d LIMIT 1\n    "

/-- The type-scoped label query f-string for the full title (lines 121-126). -/
def typeQuery2Str (full_escaped : String) : String :=
  "\n        SELECT ?item WHERE \x7b\n          ?item rdfs:label \x22" ++ full_escaped ++
    "\x22@" ++ LABEL_LANG ++
    " .\n          ?item wdt:P31/wdt:P279* wd:Q7725634 .\n        \x7d LIMIT 1\n        "

/-- Function `title_to_wikidata` (lines 79-129): author-constrained label match when
`author_qid` is truthy, then the type-scoped label match on the normalized
title, then — when escaping left the normalized title different from the
full title — the type-scoped match on the full title. -/
def title_to_wikidata (net : Net) (title : String) (author_qid : Option String) :
    Option String × List Event :=
  let short_title := normalize_title title
  let escaped := escapeQuotes short_title
  let s2 : Option String × List Event :=
    match author_qid with
    | some a =>
      if a = "" then (none, [])
      else
        let r := sparql_query net (authorQueryStr escaped a) escaped
        (first_qid r.1, r.2)
    | none => (none, [])
  match s2 with
  | (some q, ev) => (some q, ev)
  | (none, ev1) =>
    let r2 := sparql_query net (typeQueryStr escaped) escaped
    match first_qid r2.1 with
    | some q => (some q, ev1 ++ r2.2)
    | none =>
      let full_escaped := escapeQuotes title
      if full_escaped = escaped then (none, ev1 ++ r2.2)
      else
        let r3 := sparql_query net (typeQuery2Str full_escaped) full_escaped
        (first_qid r3.1, ev1 ++ r2.2 ++ r3.2)

/-- Result (first component) of a single `sparql_query`+`first_qid` step. -/
def qr (net : Net) (q l : String) : Option String :=
  first_qid (sparql_query net q l).1

/-- Modelled from the claim's words (C1): the ordered fallback chain for
title-based work resolution, first success wins — step 2 the
author-constrained exact-label query on the normalized title (when an
author QID is known), step 3 the type-scoped label query on the normalized
title, step 4 the type-scoped label query on the original title when it
differs from the normalized one, without the author constraint. -/
def titleChainSpec (net : Net) (title : String) (author_qid : Option String) :
    Option String :=
  let short := normalize_title title
  let esc := escapeQuotes short
  let step2 : Option String :=
    match author_qid with
    | some a => if a = "" then none else qr net (authorQueryStr esc a) esc
    | none => none
  let step3 : Option String := qr net (typeQueryStr esc) esc
  let step4 : Option String :=
    if title = short then none
    else qr net (typeQuery2Str (escapeQuotes title)) (escapeQuotes title)
  step2.orElse (fun _ => step3.orElse (fun _ => step4))

/-- The two in-memory caches of `main` are python dicts from key to
(possibly `None`) QID; insertion happens only on a cache miss, so an
association list with first-match lookup is an exact model. -/
abbrev Cache := List (String × Option String)

/-- Python `dict.get` / `in` check. -/
def cacheLookup : Cache → String → Option (Option String)
  | [], _ => none
  | (k, v) :: rest, key => if key = k then some v else cacheLookup rest key

/-- One input row (the four columns the script reads; all other columns are
carried through untouched and play no role in resolution). -/
structure Row where
  author_name : String
  author_ids : PyVal
  title : PyVal
  title_ids : PyVal
deriving DecidableEq

/-- Author part of the loop body (lines 147-153): on a truthy VIAF id not
yet cached, resolve, cache and sleep. -/
def authorStep (net : Net) (ac : Cache) (author_viaf : Option String) :
    Cache × List Event :=
  match author_viaf with
  | some v =>
    if v = "" ∨ (cacheLookup ac v).isSome then (ac, [])
    else
      let r := viaf_to_wikidata net v
      ((v, r.1) :: ac, Event.lookupAuthor v :: (r.2 ++ [Event.sleep]))
  | none => (ac, [])

/-- Line 152, `author_qid = author_cache.get(author_viaf) if author_viaf else None`
(line 152), read on the cache state after the author step. -/
def authorQidOf (ac1 : Cache) (author_viaf : Option String) : Option String :=
  match author_viaf with
  | some v => if v = "" then none else (cacheLookup ac1 v).join
  | none => none

/-- Work VIAF branch of the loop body (lines 159-166). -/
def workViafStep (net : Net) (wc : Cache) (v : String) :
    Cache × Option String × List Event :=
  let key := "viaf:" ++ v
  match cacheLookup wc key with
  | some q => (wc, q, [])
  | none =>
    let r := viaf_to_wikidata net v
    ((key, r.1) :: wc, r.1, Event.lookupWork key :: (r.2 ++ [Event.sleep]))

/-- Work title branch of the loop body (lines 168-175). -/
def workTitleStep (net : Net) (wc : Cache) (title : String)
    (author_qid : Option String) : Cache × Option String × List Event :=
  let key := "title:" ++ title
  match cacheLookup wc key with
  | some q => (wc, q, [])
  | none =>
    let r := title_to_wikidata net title author_qid
    ((key, r.1) :: wc, r.1, Event.lookupWork key :: (r.2 ++ [Event.sleep]))

/-- The `elif title and title != "nan"` / `else` part (lines 168-178). -/
def workElse (net : Net) (wc : Cache) (title : String)
    (author_qid : Option String) : Cache × Option String × List Event :=
  if title = "" ∨ title = "nan" then (wc, none, [])
  else workTitleStep net wc title author_qid

/-- Work part of the loop body (lines 155-178): VIAF branch on a truthy
extracted id, otherwise the title branch. -/
def workDispatch (net : Net) (wc : Cache) (work_viaf : Option String)
    (title : String) (author_qid : Option String) :
    Cache × Option String × List Event :=
  match work_viaf with
  | some v => if v = "" then workElse net wc title author_qid else workViafStep net wc v
  | none => workElse net wc title author_qid

/-- Result of one loop iteration: updated caches, the two appended QIDs and
the emitted events. -/
structure StepOut where
  ac : Cache
  wc : Cache
  aq : Option String
  wq : Option String
  ev : List Event
deriving DecidableEq

/-- One iteration of the `for i, row in df.iterrows()` loop (lines 143-178). -/
def processRow (net : Net) (ac wc : Cache) (r : Row) : StepOut :=
  let av := extract_viaf_id r.author_ids
  let a := authorStep net ac av
  let aq := authorQidOf a.1 av
  let w := workDispatch net wc (extract_viaf_id r.title_ids)
      (strip (pyStr r.title)) aq
  ⟨a.1, w.1, aq, w.2.1, a.2 ++ w.2.2⟩

/-- Result of the whole loop: the two QID columns (in row order), the full
event trace, and the final caches. -/
structure RunOut where
  aqs : List (Option String)
  wqs : List (Option String)
  ev : List Event
  acF : Cache
  wcF : Cache

/-- The loop of `main`, threading the two caches through the rows. -/
def runRows (net : Net) : Cache → Cache → List Row → RunOut
  | ac, wc, [] => ⟨[], [], [], ac, wc⟩
  | ac, wc, r :: rs =>
    let s := processRow net ac wc r
    let o := runRows net s.ac s.wc rs
    ⟨s.aq :: o.aqs, s.wq :: o.wqs, s.ev ++ o.ev, o.acF, o.wcF⟩

/-- Function `main` (lines 133-189): run the loop from empty caches and write every
input row back out with the two resolved-QID columns appended. -/
def main (net : Net) (rows : List Row) :
    List (Row × Option String × Option String) × List Event :=
  let o := runRows net ([] : Cache) ([] : Cache) rows
  (rows.zip (o.aqs.zip o.wqs), o.ev)

/-- Is this event the progress print of an author resolution? -/
def isLookupA : Event → Bool
  | .lookupAuthor _ => true
  | _ => false

/-- Is this event the progress print of a work resolution? -/
def isLookupW : Event → Bool
  | .lookupWork _ => true
  | _ => false

/-- Events produced inside `sparql_query` (requests and warnings): the
events of one network round trip. -/
def isNetEvent : Event → Bool
  | .query _ _ => true
  | .warn _ => true
  | _ => false

/-- The progress print that opens a resolution episode. -/
def isLookupEvent : Event → Bool
  | .lookupAuthor _ => true
  | .lookupWork _ => true
  | _ => false

/-- A trace is a sequence of resolution episodes, each consisting of a
progress print, the network events of that resolution, and a single
terminating pause; rows served from the cache contribute nothing. -/
inductive Paused : List Event → Prop where
  | nil : Paused []
  | episode (h : Event) (body rest : List Event) :
      isLookupEvent h = true → (∀ e ∈ body, isNetEvent e = true) → Paused rest →
      Paused (h :: (body ++ Event.sleep :: rest))

/-- Modelled from the claim's words (C5): scan the trace and check that
after every network request a pause occurs before the next network
request. -/
def noCallWithoutPause : Bool → List Event → Bool
  | _, [] => true
  | pending, e :: es =>
    match e with
    | .query _ _ => if pending then false else noCallWithoutPause true es
    | .sleep => noCallWithoutPause false es
    | _ => noCallWithoutPause pending es

/-- Modelled from the claim's words (C5): every network call is followed by
a pause before the next network call. -/
def pausedBetweenCalls (t : List Event) : Bool := noCallWithoutPause false t

/-- The author cache key arising from an extracted VIAF id: the id itself
when truthy. -/
def authorKeyFrom (av : Option String) : Option String :=
  match av with
  | some v => if v = "" then none else some v
  | none => none

/-- The author cache key a row gives rise to, if any. -/
def authorKeyOf (r : Row) : Option String :=
  authorKeyFrom (extract_viaf_id r.author_ids)

/-- The tagged work cache key arising from an extracted work VIAF id and
the stripped title: the `viaf:`-tagged key on a truthy id, else the
`title:`-tagged key on a usable title. -/
def workKeyFrom (wv : Option String) (t : String) : Option String :=
  match wv with
  | some v =>
    if v = "" then (if t = "" ∨ t = "nan" then none else some ("title:" ++ t))
    else some ("viaf:" ++ v)
  | none => if t = "" ∨ t = "nan" then none else some ("title:" ++ t)

/-- The tagged work cache key a row gives rise to, if any. -/
def workKeyOf (r : Row) : Option String :=
  workKeyFrom (extract_viaf_id r.title_ids) (strip (pyStr r.title))

/-- The set of keys present in a cache. -/
def cacheKeys (c : Cache) : Finset String := (c.map Prod.fst).toFinset

/-- Remove the maximal leading run satisfying `p` (direct recursion; used
for claim-level restatements). -/
def trimLeft (p : Char → Bool) : List Char → List Char
  | [] => []
  | c :: cs => if p c then trimLeft p cs else c :: cs

/-- Remove the maximal trailing run satisfying `p` (direct recursion; used
for claim-level restatements). -/
def trimRight (p : Char → Bool) : List Char → List Char
  | [] => []
  | c :: cs =>
    let r := trimRight p cs
    if r.isEmpty ∧ p c then [] else c :: r

/-- Trailing punctuation-and-whitespace, one reading of claim C8's
"trailing punctuation and whitespace". -/
def isPunctWS (c : Char) : Bool := isPunct c || isPySpace c

/-- Modelled from the claim's words (C8): cut at the first occurrence of a
subtitle separator and trim only *trailing* punctuation and whitespace, so
that leading characters are preserved. -/
def normalize_title_claimed (t : String) : String :=
  String.mk (trimRight isPunctWS (t.data.takeWhile (fun c => !isSep c)))

/-- Cut at the first separator, discarding the whitespace run immediately
before it (phrased with `trimRight`; amended claim C8). -/
def cutFirstPiece (l : List Char) : List Char :=
  if l.any isSep then trimRight isPySpace (l.takeWhile (fun c => !isSep c)) else l

/-- Amended claim C8: after the cut, characters among space, period and
comma are stripped from *both* ends. -/
def normalize_title_amended (t : String) : String :=
  String.mk (trimRight isPunct (trimLeft isPunct (cutFirstPiece t.data)))

/-- A remote service that always answers with an empty result set. -/
def netOk : Net := fun _ => Except.ok []

/-- A remote service that always fails (network error). -/
def netErr : Net := fun _ => Except.error "boom"

/-- A remote service answering every query with a single fixed entity. -/
def netQ1 : Net := fun _ => Except.ok ["http://www.wikidata.org/entity/Q1"]

/-- Row with no author reference and a subtitled work title: drives the
title-resolution fallback chain through two consecutive queries. -/
def rowT : Row := ⟨"A", PyVal.na, PyVal.str "T: S", PyVal.na⟩

/-- Row with an author VIAF reference and no work data. -/
def rowA : Row := ⟨"X", PyVal.str "https://viaf.org/viaf/5/", PyVal.na, PyVal.na⟩

/-- Row with a work VIAF reference (and an author reference). -/
def rowV : Row :=
  ⟨"Y", PyVal.str "https://viaf.org/viaf/5/", PyVal.str "Lalka",
    PyVal.str "https://viaf.org/viaf/999/"⟩

/-! ### Generic list helpers -/

theorem mem_dropWhile_of_mem_not {p : Char → Bool} {l : List Char} {c : Char}
    (hc : c ∈ l) (hpc : p c = false) : c ∈ l.dropWhile p := by
  induction l with
  | nil => cases hc
  | cons a l ih =>
    by_cases ha : p a
    · rw [List.dropWhile_cons_of_pos ha]
      rcases List.mem_cons.mp hc with rfl | hc'
      · rw [hpc] at ha; cases ha
      · exact ih hc'
    · rwa [List.dropWhile_cons_of_neg ha]

theorem mem_of_mem_dropWhile {p : Char → Bool} {l : List Char} {c : Char}
    (h : c ∈ l.dropWhile p) : c ∈ l := by
  induction l with
  | nil => simpa using h
  | cons a l ih =>
    by_cases ha : p a
    · rw [List.dropWhile_cons_of_pos ha] at h
      exact List.mem_cons_of_mem a (ih h)
    · rwa [List.dropWhile_cons_of_neg ha] at h

theorem head?_dropWhile_not {p : Char → Bool} {l : List Char} {c : Char}
    (h : (l.dropWhile p).head? = some c) : p c = false := by
  induction l with
  | nil => simp at h
  | cons a l ih =>
    by_cases ha : p a
    · rw [List.dropWhile_cons_of_pos ha] at h; exact ih h
    · rw [List.dropWhile_cons_of_neg ha] at h
      simp only [List.head?_cons, Option.some.injEq] at h
      subst h
      exact Bool.eq_false_iff.mpr ha

theorem dropWhile_eq_self_of_head {p : Char → Bool} {l : List Char}
    (h : ∀ c, l.head? = some c → p c = false) : l.dropWhile p = l := by
  cases l with
  | nil => rfl
  | cons a l =>
    exact List.dropWhile_cons_of_neg (by simpa using h a rfl)

theorem dropWhile_idem (p : Char → Bool) (l : List Char) :
    (l.dropWhile p).dropWhile p = l.dropWhile p :=
  dropWhile_eq_self_of_head (fun _ hc => head?_dropWhile_not hc)

theorem rstripP_isPref (p : Char → Bool) (l : List Char) : rstripP p l <+: l := by
  refine ⟨(l.reverse.takeWhile p).reverse, ?_⟩
  rw [rstripP, ← List.reverse_append, List.takeWhile_append_dropWhile,
    List.reverse_reverse]

theorem head?_of_isPref {l w : List Char} {c : Char} (h : l <+: w)
    (hc : l.head? = some c) : w.head? = some c := by
  rcases h with ⟨r, rfl⟩
  cases l with
  | nil => simp at hc
  | cons a t => simpa using hc

theorem rstripP_idem (p : Char → Bool) (l : List Char) :
    rstripP p (rstripP p l) = rstripP p l := by
  simp [rstripP, List.reverse_reverse, dropWhile_idem]

theorem dropWhile_stripBoth (p : Char → Bool) (l : List Char) :
    (stripBoth p l).dropWhile p = stripBoth p l := by
  apply dropWhile_eq_self_of_head
  intro c hc
  exact head?_dropWhile_not (head?_of_isPref (rstripP_isPref p (l.dropWhile p)) hc)

theorem stripBoth_idem (p : Char → Bool) (l : List Char) :
    stripBoth p (stripBoth p l) = stripBoth p l := by
  conv_lhs => rw [stripBoth, dropWhile_stripBoth]
  rw [stripBoth, rstripP_idem]

theorem mem_of_mem_stripBoth {p : Char → Bool} {l : List Char} {c : Char}
    (h : c ∈ stripBoth p l) : c ∈ l :=
  mem_of_mem_dropWhile ((rstripP_isPref p (l.dropWhile p)).subset h)

/-! ### `extract_viaf_id` (claims C6, C10) -/

theorem strip_mem_of_not_space {u : String} {c : Char} (hc : c ∈ u.data)
    (hw : isPySpace c = false) : c ∈ (strip u).data := by
  show c ∈ ((u.data.dropWhile isPySpace).reverse.dropWhile isPySpace).reverse
  rw [List.mem_reverse]
  exact mem_dropWhile_of_mem_not (List.mem_reverse.mpr
    (mem_dropWhile_of_mem_not hc hw)) hw

theorem strip_not_sentinel {u : String} (h : '.' ∈ u.data) :
    ¬(strip u = "" ∨ strip u = "NA") := by
  have hm : '.' ∈ (strip u).data := strip_mem_of_not_space h (by decide)
  rintro (he | he) <;> rw [he] at hm <;> simp at hm

theorem searchViaf_eq_of_matchAt {l : List Char} {d : List Char}
    (h : viafMatchAt l = some d) : searchViaf l = some d := by
  cases l with
  | nil =>
    rw [show viafMatchAt [] = none by decide] at h
    cases h
  | cons c cs =>
    rw [searchViaf, h]

theorem searchViaf_cons_none {c : Char} {cs : List Char}
    (h : viafMatchAt (c :: cs) = none) : searchViaf (c :: cs) = searchViaf cs := by
  rw [searchViaf, h]

theorem searchViaf_none {l : List Char} (h : ∀ n, viafMatchAt (l.drop n) = none) :
    searchViaf l = none := by
  induction l with
  | nil => rfl
  | cons c cs ih =>
    rw [searchViaf_cons_none (by simpa using h 0)]
    exact ih (fun n => by simpa using h (n + 1))

theorem searchViaf_append_skip (pre rest : List Char)
    (h : ∀ n, n < pre.length → viafMatchAt ((pre ++ rest).drop n) = none) :
    searchViaf (pre ++ rest) = searchViaf rest := by
  induction pre with
  | nil => rfl
  | cons c pre' ih =>
    rw [List.cons_append, searchViaf_cons_none (by simpa using h 0 (by simp))]
    exact ih (fun n hn => by simpa using h (n + 1) (by simpa using hn))

theorem takeWhile_all_append {p : Char → Bool} {d suf : List Char}
    (hd : ∀ c ∈ d, p c) (hsuf : ∀ c, suf.head? = some c → ¬p c) :
    (d ++ suf).takeWhile p = d := by
  induction d with
  | nil =>
    cases suf with
    | nil => rfl
    | cons s t => exact List.takeWhile_cons_of_neg (hsuf s rfl)
  | cons a d' ih =>
    rw [List.cons_append, List.takeWhile_cons_of_pos (hd a (List.mem_cons_self a d'))]
    rw [ih (fun c hc => hd c (List.mem_cons_of_mem a hc))]

theorem viafMatchAt_hit {d suf : List Char} (hd : d ≠ [])
    (hdig : ∀ c ∈ d, c.isDigit) (hsuf : ∀ c, suf.head? = some c → ¬c.isDigit) :
    viafMatchAt (viafPat ++ (d ++ suf)) = some d := by
  unfold viafMatchAt
  rw [if_pos (by simpa using List.prefix_append viafPat (d ++ suf))]
  rw [List.drop_left, takeWhile_all_append hdig hsuf]
  simp [hd]

theorem viafMatchAt_digits {l d : List Char} (h : viafMatchAt l = some d) :
    d ≠ [] ∧ ∀ c ∈ d, c.isDigit := by
  unfold viafMatchAt at h
  split at h
  · split at h
    · cases h
    · rename_i he
      injection h with h'
      subst h'
      constructor
      · simpa [List.isEmpty_iff] using he
      · intro c hc
        exact List.mem_takeWhile_imp hc
  · cases h

theorem searchViaf_digits {l d : List Char} (h : searchViaf l = some d) :
    d ≠ [] ∧ ∀ c ∈ d, c.isDigit := by
  induction l with
  | nil =>
    rw [searchViaf_none (fun n => by simp [show viafMatchAt [] = none by decide])] at h
    cases h
  | cons c cs ih =>
    cases hm : viafMatchAt (c :: cs) with
    | some d' =>
      rw [searchViaf_eq_of_matchAt hm] at h
      cases h
      exact viafMatchAt_digits hm
    | none =>
      rw [searchViaf_cons_none hm] at h
      exact ih h

theorem extract_viaf_id_digits {u : PyVal} {v : String}
    (h : extract_viaf_id u = some v) :
    v ≠ "" ∧ ∀ c ∈ v.data, c.isDigit := by
  cases u with
  | na => cases h
  | str s =>
    rw [show extract_viaf_id (PyVal.str s) =
        (if strip s = "" ∨ strip s = "NA" then none
          else (searchViaf s.data).map String.mk) from rfl] at h
    split at h
    · cases h
    · cases hs : searchViaf s.data with
      | none => rw [hs] at h; cases h
      | some d =>
        rw [hs] at h
        injection h with h'
        subst h'
        obtain ⟨hne, hdig⟩ := searchViaf_digits hs
        refine ⟨?_, hdig⟩
        intro he
        exact hne (congrArg String.data he)

/-- Claim C6: identifier extraction returns exactly the embedded digit
string when the input contains the pattern `viaf.org/viaf/<digits>` (the
digit run maximal, no earlier match); it returns `none` on the empty
string, the `"NA"` placeholder (also whitespace-padded), a non-string
value, and any text in which the pattern matches nowhere.  The function is
total, hence never raises. -/
theorem claim6_extract_viaf :
    (∀ pre d suf : List Char, d ≠ [] → (∀ c ∈ d, c.isDigit) →
      (∀ c, suf.head? = some c → ¬c.isDigit) →
      (∀ n, n < pre.length → viafMatchAt ((pre ++ (viafPat ++ (d ++ suf))).drop n) = none) →
      extract_viaf_id (PyVal.str (String.mk (pre ++ (viafPat ++ (d ++ suf))))) =
        some (String.mk d))
    ∧ extract_viaf_id (PyVal.str "") = none
    ∧ extract_viaf_id (PyVal.str "NA") = none
    ∧ extract_viaf_id (PyVal.str "  NA ") = none
    ∧ extract_viaf_id PyVal.na = none
    ∧ (∀ s : String, (∀ n, viafMatchAt (s.data.drop n) = none) →
        extract_viaf_id (PyVal.str s) = none) := by
  refine ⟨?_, by decide, by decide, by decide, rfl, ?_⟩
  · intro pre d suf hd hdig hsuf hpre
    have hdot : '.' ∈ pre ++ (viafPat ++ (d ++ suf)) :=
      List.mem_append.mpr (Or.inr (List.mem_append.mpr (Or.inl (by decide))))
    rw [show extract_viaf_id (PyVal.str (String.mk (pre ++ (viafPat ++ (d ++ suf))))) =
        (if strip (String.mk (pre ++ (viafPat ++ (d ++ suf)))) = "" ∨
            strip (String.mk (pre ++ (viafPat ++ (d ++ suf)))) = "NA" then none
          else (searchViaf (pre ++ (viafPat ++ (d ++ suf)))).map String.mk) from rfl]
    rw [if_neg (strip_not_sentinel hdot)]
    rw [searchViaf_append_skip pre _ hpre,
      searchViaf_eq_of_matchAt (viafMatchAt_hit hd hdig hsuf)]
    rfl
  · intro s h
    rw [show extract_viaf_id (PyVal.str s) =
        (if strip s = "" ∨ strip s = "NA" then none
          else (searchViaf s.data).map String.mk) from rfl]
    split
    · rfl
    · rw [searchViaf_none h]
      rfl

/-- Witness for C6 at a concrete well-formed URL. -/
theorem claim6_extract_viaf_witness :
    extract_viaf_id (PyVal.str "https://viaf.org/viaf/12345/") = some "12345" := by
  have h := claim6_extract_viaf.1 "https://".data "12345".data "/".data
    (by decide) (by decide) (by decide) (by decide)
  have e1 : String.mk ("https://".data ++ (viafPat ++ ("12345".data ++ "/".data))) =
      "https://viaf.org/viaf/12345/" := by decide
  have e2 : String.mk "12345".data = "12345" := rfl
  rw [e1, e2] at h
  exact h

/-! ### `normalize_title` (claims C7, C8) -/

theorem no_sep_of_normalized (l : List Char) :
    ∀ c ∈ stripBoth isPunct (firstPiece l), isSep c = false := by
  intro c hc
  have hc' : c ∈ firstPiece l := mem_of_mem_stripBoth hc
  unfold firstPiece at hc'
  by_cases hany : l.any isSep
  · rw [if_pos hany] at hc'
    have := List.mem_takeWhile_imp ((rstripP_isPref isPySpace _).subset hc')
    simpa using this
  · rw [if_neg hany] at hc'
    have := List.any_eq_false.mp (Bool.eq_false_iff.mpr hany) c hc'
    exact Bool.eq_false_iff.mpr this

theorem firstPiece_of_noSep {l : List Char} (h : ∀ c ∈ l, isSep c = false) :
    firstPiece l = l := by
  unfold firstPiece
  rw [if_neg]
  intro hany
  obtain ⟨c, hc, hsep⟩ := List.any_eq_true.mp hany
  rw [h c hc] at hsep
  cases hsep

/-- Claim C7: normalization is idempotent, and the two examples from the
spec evaluate as stated. -/
theorem claim7_normalize_idempotent :
    (∀ t : String, normalize_title (normalize_title t) = normalize_title t)
    ∧ normalize_title "Coningsby: or, The New Generation" = "Coningsby"
    ∧ normalize_title "Pan Tadeusz" = "Pan Tadeusz" := by
  refine ⟨?_, by decide, by decide⟩
  intro t
  show String.mk (stripBoth isPunct (firstPiece (stripBoth isPunct (firstPiece t.data)))) =
    String.mk (stripBoth isPunct (firstPiece t.data))
  rw [firstPiece_of_noSep (no_sep_of_normalized t.data), stripBoth_idem]

theorem trimLeft_eq (p : Char → Bool) (l : List Char) :
    trimLeft p l = l.dropWhile p := by
  induction l with
  | nil => rfl
  | cons c cs ih =>
    rw [trimLeft, List.dropWhile_cons]
    by_cases hc : p c
    · simp [hc, ih]
    · simp [hc]

theorem trimRight_eq (p : Char → Bool) (l : List Char) :
    trimRight p l = rstripP p l := by
  induction l with
  | nil => rfl
  | cons c cs ih =>
    rw [trimRight]
    show (if (trimRight p cs).isEmpty ∧ p c then [] else c :: trimRight p cs) = _
    rw [rstripP, List.reverse_cons, List.dropWhile_append]
    by_cases hE : (cs.reverse.dropWhile p).isEmpty
    · rw [if_pos hE]
      have hnil : cs.reverse.dropWhile p = [] := List.isEmpty_iff.mp hE
      have hr : trimRight p cs = [] := by rw [ih, rstripP, hnil]; rfl
      by_cases hc : p c
      · rw [if_pos ⟨by rw [hr]; rfl, hc⟩]
        simp [List.dropWhile_cons, hc]
      · rw [if_neg (by rintro ⟨-, h⟩; exact hc h)]
        simp [List.dropWhile_cons, hc, hr]
    · rw [if_neg hE]
      have hr : (trimRight p cs).isEmpty = false := by
        rw [ih, rstripP]
        simp only [List.isEmpty_eq_false] at hE ⊢
        intro h
        exact hE (by simpa using congrArg List.reverse h)
      rw [if_neg (by rintro ⟨h, -⟩; rw [hr] at h; cases h)]
      rw [List.reverse_append, ih, rstripP]
      simp

theorem firstPiece_eq_cut (l : List Char) : firstPiece l = cutFirstPiece l := by
  unfold firstPiece cutFirstPiece
  rw [trimRight_eq]

/-- Counterexample to claim C8 as stated: on `",A\t"` (no separator) the
code strips the *leading* comma — characters before the first
non-punctuation character are not preserved — and keeps the trailing tab,
while the claimed trailing-only trim would keep the comma (and drop the
tab). -/
theorem claim8_counterexample :
    normalize_title ",A\t" = "A\t"
    ∧ normalize_title_claimed ",A\t" = ",A"
    ∧ normalize_title ",A\t" ≠ normalize_title_claimed ",A\t" := by
  refine ⟨by decide, by decide, by decide⟩

/-- Amended claim C8: `normalize_title` cuts at the first colon/semicolon —
discarding the whitespace run immediately before the separator — and then
strips the characters space, period and comma from *both* ends; a title
with no separator keeps all other characters (including non-space
whitespace such as tabs) intact. -/
theorem claim8_strip_both_ends (t : String) :
    normalize_title t = normalize_title_amended t := by
  show String.mk (stripBoth isPunct (firstPiece t.data)) = _
  rw [normalize_title_amended, trimLeft_eq, trimRight_eq, ← firstPiece_eq_cut]
  rfl

/-! ### `sparql_query` (claim C4) -/

/-- Claim C4: on success the client returns the bindings list (and has
issued exactly one request); on any failure it returns the empty list and
prints a warning whose text contains both the diagnostic label and the
error.  The function is total — an individual remote failure never
propagates. -/
theorem claim4_sparql_error_recovery (net : Net) (q label : String) :
    (∀ bs, net q = Except.ok bs →
      sparql_query net q label = (bs, [Event.query q label]))
    ∧ (∀ e, net q = Except.error e →
      (sparql_query net q label).1 = []
      ∧ (sparql_query net q label).2 =
          [Event.query q label, Event.warn (warnMsg label e)]
      ∧ label.data <:+: (warnMsg label e).data
      ∧ e.data <:+: (warnMsg label e).data) := by
  constructor
  · intro bs h
    simp [sparql_query, h]
  · intro e h
    refine ⟨by simp [sparql_query, h], by simp [sparql_query, h], ?_, ?_⟩
    · unfold warnMsg
      by_cases hl : label = ""
      · rw [hl]
        exact List.nil_infix
      · rw [if_neg hl]
        refine ⟨("  Warning: SPARQL error" ++ " for ").data, (": " ++ e).data, ?_⟩
        simp [List.append_assoc]
    · refine ⟨("  Warning: SPARQL error" ++
        (if label = "" then "" else " for " ++ label) ++ ": ").data, [], ?_⟩
      simp [warnMsg]

/-- Witness for C4: a failing service yields an empty result and a warning
containing the label. -/
theorem claim4_sparql_error_recovery_witness :
    (sparql_query netErr "Q" "L").1 = []
    ∧ "L".data <:+: (warnMsg "L" "boom").data := by
  have h := (claim4_sparql_error_recovery netErr "Q" "L").2 "boom" rfl
  exact ⟨h.1, h.2.2.1⟩

/-! ### `title_to_wikidata` (claim C1) -/

theorem escList_ne_quote_cons (l w : List Char) : escList l ≠ '\x22' :: w := by
  intro h
  cases l with
  | nil => cases h
  | cons c cs =>
    rw [escList] at h
    by_cases hc : c = '\x22'
    · rw [if_pos hc] at h
      injection h with h1 _
      exact absurd h1 (by decide)
    · rw [if_neg hc] at h
      injection h with h1 _
      exact hc h1

theorem escList_injective : ∀ l m : List Char, escList l = escList m → l = m := by
  intro l
  induction l with
  | nil =>
    intro m h
    cases m with
    | nil => rfl
    | cons e es =>
      exfalso
      rw [escList, escList] at h
      by_cases he : e = '\x22' <;> simp [he] at h
  | cons c cs ih =>
    intro m h
    cases m with
    | nil =>
      exfalso
      rw [escList, escList] at h
      by_cases hc : c = '\x22' <;> simp [hc] at h
    | cons e es =>
      rw [escList, escList] at h
      by_cases hc : c = '\x22' <;> by_cases he : e = '\x22'
      · rw [if_pos hc, if_pos he] at h
        injection h with _ h2
        injection h2 with _ h3
        rw [hc, he, ih es h3]
      · rw [if_pos hc, if_neg he] at h
        injection h with h1 h2
        exact absurd h2.symm (escList_ne_quote_cons es _)
      · rw [if_neg hc, if_pos he] at h
        injection h with h1 h2
        exact absurd h2 (escList_ne_quote_cons cs _)
      · rw [if_neg hc, if_neg he] at h
        injection h with h1 h2
        rw [h1, ih es h2]

theorem escapeQuotes_inj {s t : String} (h : escapeQuotes s = escapeQuotes t) :
    s = t := by
  have h' : escList s.data = escList t.data := by
    have := congrArg String.data h
    simpa [escapeQuotes] using this
  have hd := escList_injective _ _ h'
  cases s
  cases t
  exact congrArg String.mk hd

/-- Claim C1: for title-based work resolution the implementation realizes
the ordered fallback chain `titleChainSpec` — author-constrained label
match first (when an author QID is known), then the type-scoped label
match on the normalized title, then, exactly when the original title
differs from its normalized form, the type-scoped match on the original
title without the author constraint; absent when everything fails.  First
success wins. -/
theorem claim1_title_fallback_chain (net : Net) (title : String)
    (author_qid : Option String) :
    (title_to_wikidata net title author_qid).1 = titleChainSpec net title author_qid := by
  have hcond : (escapeQuotes title = escapeQuotes (normalize_title title)) ↔
      (title = normalize_title title) :=
    ⟨fun h => escapeQuotes_inj h, fun h => by rw [← h]⟩
  unfold title_to_wikidata titleChainSpec qr
  cases author_qid with
  | none =>
    dsimp only
    cases h3 : first_qid (sparql_query net (typeQueryStr (escapeQuotes (normalize_title title)))
        (escapeQuotes (normalize_title title))).1 with
    | some q => simp [h3]
    | none =>
      simp only [h3, Option.none_orElse]
      by_cases hc : escapeQuotes title = escapeQuotes (normalize_title title)
      · rw [if_pos hc, if_pos (hcond.mp hc)]; simp
      · rw [if_neg hc, if_neg (fun h => hc (hcond.mpr h))]; simp
  | some a =>
    by_cases ha : a = ""
    · dsimp only
      rw [if_pos ha, if_pos ha]
      dsimp only
      cases h3 : first_qid (sparql_query net (typeQueryStr (escapeQuotes (normalize_title title)))
          (escapeQuotes (normalize_title title))).1 with
      | some q => simp [h3]
      | none =>
        simp only [h3, Option.none_orElse]
        by_cases hc : escapeQuotes title = escapeQuotes (normalize_title title)
        · rw [if_pos hc, if_pos (hcond.mp hc)]; simp
        · rw [if_neg hc, if_neg (fun h => hc (hcond.mpr h))]; simp
    · dsimp only
      rw [if_neg ha, if_neg ha]
      cases h2 : first_qid (sparql_query net
          (authorQueryStr (escapeQuotes (normalize_title title)) a)
          (escapeQuotes (normalize_title title))).1 with
      | some q => simp [h2]
      | none =>
        simp only [h2, Option.none_orElse]
        cases h3 : first_qid (sparql_query net
            (typeQueryStr (escapeQuotes (normalize_title title)))
            (escapeQuotes (normalize_title title))).1 with
        | some q => simp [h3]
        | none =>
          simp only [h3, Option.none_orElse]
          by_cases hc : escapeQuotes title = escapeQuotes (normalize_title title)
          · rw [if_pos hc, if_pos (hcond.mp hc)]; simp
          · rw [if_neg hc, if_neg (fun h => hc (hcond.mpr h))]; simp

/-! ### Driver-level anatomy lemmas -/

theorem cacheLookup_cons (k' : String) (v : Option String) (c : Cache) (k : String) :
    cacheLookup ((k', v) :: c) k = if k = k' then some v else cacheLookup c k := rfl

theorem sparql_query_ok {net : Net} {q : String} {bs : List String}
    (hq : net q = Except.ok bs) (l : String) :
    sparql_query net q l = (bs, [Event.query q l]) := by
  unfold sparql_query
  rw [hq]

theorem sparql_query_err {net : Net} {q er : String}
    (hq : net q = Except.error er) (l : String) :
    sparql_query net q l = ([], [Event.query q l, Event.warn (warnMsg l er)]) := by
  unfold sparql_query
  rw [hq]

theorem sparql_query_events (net : Net) (q l : String) :
    ∀ e ∈ (sparql_query net q l).2, isNetEvent e = true := by
  intro e he
  cases hq : net q with
  | ok bs =>
    rw [sparql_query_ok hq] at he
    simp only [List.mem_singleton] at he
    rw [he]; rfl
  | error er =>
    rw [sparql_query_err hq] at he
    rcases List.mem_pair.mp he with rfl | rfl <;> rfl

theorem sparql_query_shape (net : Net) (Q L q l : String)
    (h : Event.query q l ∈ (sparql_query net Q L).2) : q = Q ∧ l = L := by
  cases hq : net Q with
  | ok bs =>
    rw [sparql_query_ok hq] at h
    simp only [List.mem_singleton, Event.query.injEq] at h
    exact h
  | error er =>
    rw [sparql_query_err hq] at h
    rcases List.mem_pair.mp h with h' | h'
    · exact ⟨(Event.query.injEq _ _ _ _).mp h' |>.1, (Event.query.injEq _ _ _ _).mp h' |>.2⟩
    · cases h'

theorem viaf_to_wikidata_events (net : Net) (v : String) :
    ∀ e ∈ (viaf_to_wikidata net v).2, isNetEvent e = true :=
  sparql_query_events net (viafQueryStr v) v

theorem viaf_to_wikidata_query_shape (net : Net) (v q l : String)
    (h : Event.query q l ∈ (viaf_to_wikidata net v).2) : q = viafQueryStr v :=
  (sparql_query_shape net (viafQueryStr v) v q l h).1

theorem title_to_wikidata_ev_subset (net : Net) (t : String) (a : Option String) :
    (title_to_wikidata net t a).2 ⊆
      (match a with
        | some a' =>
          if a' = "" then []
          else (sparql_query net (authorQueryStr (escapeQuotes (normalize_title t)) a')
            (escapeQuotes (normalize_title t))).2
        | none => [])
      ++ (sparql_query net (typeQueryStr (escapeQuotes (normalize_title t)))
          (escapeQuotes (normalize_title t))).2
      ++ (sparql_query net (typeQuery2Str (escapeQuotes t)) (escapeQuotes t)).2 := by
  unfold title_to_wikidata
  cases a with
  | none =>
    dsimp only
    cases h3 : first_qid (sparql_query net (typeQueryStr (escapeQuotes (normalize_title t)))
        (escapeQuotes (normalize_title t))).1 with
    | some q =>
      simp only [h3]
      intro x hx
      simp only [List.nil_append, List.mem_append] at hx ⊢
      tauto
    | none =>
      simp only [h3]
      by_cases hc : escapeQuotes t = escapeQuotes (normalize_title t)
      · rw [if_pos hc]
        intro x hx
        simp only [List.nil_append, List.mem_append] at hx ⊢
        tauto
      · rw [if_neg hc]
        intro x hx
        simp only [List.nil_append, List.mem_append] at hx ⊢
        tauto
  | some a' =>
    dsimp only
    by_cases ha : a' = ""
    · rw [if_pos ha, if_pos ha]
      cases h3 : first_qid (sparql_query net (typeQueryStr (escapeQuotes (normalize_title t)))
          (escapeQuotes (normalize_title t))).1 with
      | some q =>
        simp only [h3]
        intro x hx
        simp only [List.nil_append, List.mem_append] at hx ⊢
        tauto
      | none =>
        simp only [h3]
        by_cases hc : escapeQuotes t = escapeQuotes (normalize_title t)
        · rw [if_pos hc]
          intro x hx
          simp only [List.nil_append, List.mem_append] at hx ⊢
          tauto
        · rw [if_neg hc]
          intro x hx
          simp only [List.nil_append, List.mem_append] at hx ⊢
          tauto
    · rw [if_neg ha, if_neg ha]
      cases h2 : first_qid (sparql_query net
          (authorQueryStr (escapeQuotes (normalize_title t)) a')
          (escapeQuotes (normalize_title t))).1 with
      | some q =>
        simp only [h2]
        intro x hx
        simp only [List.mem_append] at hx ⊢
        tauto
      | none =>
        simp only [h2]
        cases h3 : first_qid (sparql_query net (typeQueryStr (escapeQuotes (normalize_title t)))
            (escapeQuotes (normalize_title t))).1 with
        | some q =>
          simp only [h3]
          intro x hx
          simp only [List.mem_append] at hx ⊢
          tauto
        | none =>
          simp only [h3]
          by_cases hc : escapeQuotes t = escapeQuotes (normalize_title t)
          · rw [if_pos hc]
            intro x hx
            simp only [List.mem_append] at hx ⊢
            tauto
          · rw [if_neg hc]
            intro x hx
            simp only [List.mem_append, List.append_assoc] at hx ⊢
            tauto

theorem title_to_wikidata_events (net : Net) (t : String) (a : Option String) :
    ∀ e ∈ (title_to_wikidata net t a).2, isNetEvent e = true := by
  intro e he
  have hx := title_to_wikidata_ev_subset net t a he
  simp only [List.mem_append] at hx
  rcases hx with (hx | hx) | hx
  · cases a with
    | none => cases hx
    | some a' =>
      dsimp only at hx
      by_cases ha : a' = ""
      · rw [if_pos ha] at hx
        cases hx
      · rw [if_neg ha] at hx
        exact sparql_query_events net _ _ e hx
  · exact sparql_query_events net _ _ e hx
  · exact sparql_query_events net _ _ e hx

theorem authorStep_spec (net : Net) (ac : Cache) (av : Option String) :
    (authorKeyFrom av = none → authorStep net ac av = (ac, []))
    ∧ (∀ k, authorKeyFrom av = some k →
      ((cacheLookup ac k).isSome → authorStep net ac av = (ac, []))
      ∧ ((cacheLookup ac k) = none →
        authorStep net ac av =
          ((k, (viaf_to_wikidata net k).1) :: ac,
            Event.lookupAuthor k :: ((viaf_to_wikidata net k).2 ++ [Event.sleep])))) := by
  constructor
  · intro h
    cases av with
    | none => rfl
    | some v =>
      simp only [authorKeyFrom] at h
      by_cases hv : v = ""
      · simp only [authorStep]
        rw [if_pos (Or.inl hv)]
      · rw [if_neg hv] at h; cases h
  · intro k h
    cases av with
    | none => cases h
    | some v =>
      simp only [authorKeyFrom] at h
      by_cases hv : v = ""
      · rw [if_pos hv] at h; cases h
      · rw [if_neg hv] at h
        injection h with h'
        subst h'
        constructor
        · intro hs
          simp only [authorStep]
          rw [if_pos (Or.inr hs)]
        · intro hn
          simp only [authorStep]
          rw [if_neg (by rintro (h' | h'); exact hv h'; rw [hn] at h'; cases h')]

theorem workDispatch_spec (net : Net) (wc : Cache) (wv : Option String)
    (t : String) (aq : Option String) :
    (workKeyFrom wv t = none → workDispatch net wc wv t aq = (wc, none, []))
    ∧ (∀ k, workKeyFrom wv t = some k →
      (∀ q, cacheLookup wc k = some q → workDispatch net wc wv t aq = (wc, q, []))
      ∧ (cacheLookup wc k = none →
        ∃ res body, workDispatch net wc wv t aq =
            ((k, res) :: wc, res, Event.lookupWork k :: (body ++ [Event.sleep]))
          ∧ (∀ e ∈ body, isNetEvent e = true)
          ∧ ((∀ v, wv = some v → v ≠ "" → k = "viaf:" ++ v ∧
                res = (viaf_to_wikidata net v).1 ∧ body = (viaf_to_wikidata net v).2)))) := by
  have helse : ∀ h : ¬(t = "" ∨ t = "nan"), workElse net wc t aq = workTitleStep net wc t aq := by
    intro h
    simp only [workElse]
    rw [if_neg h]
  have helse0 : ∀ h : (t = "" ∨ t = "nan"), workElse net wc t aq = (wc, none, []) := by
    intro h
    simp only [workElse]
    rw [if_pos h]
  constructor
  · intro h
    cases wv with
    | none =>
      simp only [workKeyFrom] at h
      show workElse net wc t aq = _
      by_cases ht : t = "" ∨ t = "nan"
      · exact helse0 ht
      · rw [if_neg ht] at h; cases h
    | some v =>
      simp only [workKeyFrom] at h
      by_cases hv : v = ""
      · rw [if_pos hv] at h
        simp only [workDispatch]
        rw [if_pos hv]
        by_cases ht : t = "" ∨ t = "nan"
        · exact helse0 ht
        · rw [if_neg ht] at h; cases h
      · rw [if_neg hv] at h; cases h
  · intro k h
    have hviaf : ∀ v, k = "viaf:" ++ v →
        (∀ q, cacheLookup wc k = some q → workViafStep net wc v = (wc, q, []))
        ∧ (cacheLookup wc k = none →
            workViafStep net wc v = ((k, (viaf_to_wikidata net v).1) :: wc,
              (viaf_to_wikidata net v).1,
              Event.lookupWork k :: ((viaf_to_wikidata net v).2 ++ [Event.sleep]))) := by
      rintro v rfl
      constructor
      · intro q hq
        simp only [workViafStep]
        rw [hq]
      · intro hn
        simp only [workViafStep]
        rw [hn]
    have htitle : ∀ h' : k = "title:" ++ t,
        (∀ q, cacheLookup wc k = some q → workTitleStep net wc t aq = (wc, q, []))
        ∧ (cacheLookup wc k = none →
            workTitleStep net wc t aq = ((k, (title_to_wikidata net t aq).1) :: wc,
              (title_to_wikidata net t aq).1,
              Event.lookupWork k :: ((title_to_wikidata net t aq).2 ++ [Event.sleep]))) := by
      rintro rfl
      constructor
      · intro q hq
        simp only [workTitleStep]
        rw [hq]
      · intro hn
        simp only [workTitleStep]
        rw [hn]
    cases wv with
    | none =>
      simp only [workKeyFrom] at h
      by_cases ht : t = "" ∨ t = "nan"
      · rw [if_pos ht] at h; cases h
      · rw [if_neg ht] at h
        injection h with h'
        constructor
        · intro q hq
          show workElse net wc t aq = _
          rw [helse ht]
          exact (htitle h'.symm).1 q hq
        · intro hn
          refine ⟨(title_to_wikidata net t aq).1, (title_to_wikidata net t aq).2, ?_, ?_, ?_⟩
          · show workElse net wc t aq = _
            rw [helse ht]
            exact (htitle h'.symm).2 hn
          · exact title_to_wikidata_events net t aq
          · intro v hv; cases hv
    | some v =>
      by_cases hv : v = ""
      · simp only [workKeyFrom] at h
        rw [if_pos hv] at h
        by_cases ht : t = "" ∨ t = "nan"
        · rw [if_pos ht] at h; cases h
        · rw [if_neg ht] at h
          injection h with h'
          constructor
          · intro q hq
            simp only [workDispatch]
            rw [if_pos hv, helse ht]
            exact (htitle h'.symm).1 q hq
          · intro hn
            refine ⟨(title_to_wikidata net t aq).1, (title_to_wikidata net t aq).2, ?_, ?_, ?_⟩
            · simp only [workDispatch]
              rw [if_pos hv, helse ht]
              exact (htitle h'.symm).2 hn
            · exact title_to_wikidata_events net t aq
            · rintro v' hv' hne
              injection hv' with h''
              exact absurd (h'' ▸ hv) hne
      · simp only [workKeyFrom] at h
        rw [if_neg hv] at h
        injection h with h'
        constructor
        · intro q hq
          simp only [workDispatch]
          rw [if_neg hv]
          exact (hviaf v h'.symm).1 q hq
        · intro hn
          refine ⟨(viaf_to_wikidata net v).1, (viaf_to_wikidata net v).2, ?_, ?_, ?_⟩
          · simp only [workDispatch]
            rw [if_neg hv]
            exact (hviaf v h'.symm).2 hn
          · exact viaf_to_wikidata_events net v
          · rintro v' hv' -
            injection hv' with h''
            subst h''
            exact ⟨h'.symm, rfl, rfl⟩

theorem authorStep_skip {ac : Cache} {v : String} (net : Net)
    (h : v = "" ∨ (cacheLookup ac v).isSome) :
    authorStep net ac (some v) = (ac, []) := by
  simp only [authorStep]
  rw [if_pos h]

theorem authorStep_miss {ac : Cache} {v : String} (net : Net)
    (h : ¬(v = "" ∨ (cacheLookup ac v).isSome)) :
    authorStep net ac (some v) =
      ((v, (viaf_to_wikidata net v).1) :: ac,
        Event.lookupAuthor v :: ((viaf_to_wikidata net v).2 ++ [Event.sleep])) := by
  simp only [authorStep]
  rw [if_neg h]

theorem workViafStep_hit {wc : Cache} {v : String} {q : Option String} (net : Net)
    (hq : cacheLookup wc ("viaf:" ++ v) = some q) :
    workViafStep net wc v = (wc, q, []) := by
  unfold workViafStep
  dsimp only
  rw [hq]

theorem workViafStep_miss {wc : Cache} {v : String} (net : Net)
    (hq : cacheLookup wc ("viaf:" ++ v) = none) :
    workViafStep net wc v =
      (("viaf:" ++ v, (viaf_to_wikidata net v).1) :: wc, (viaf_to_wikidata net v).1,
        Event.lookupWork ("viaf:" ++ v) :: ((viaf_to_wikidata net v).2 ++ [Event.sleep])) := by
  unfold workViafStep
  dsimp only
  rw [hq]

/-- The components of one loop iteration, spelled out (all definitional). -/
theorem processRow_ac_eq (net : Net) (ac wc : Cache) (r : Row) :
    (processRow net ac wc r).ac =
      (authorStep net ac (extract_viaf_id r.author_ids)).1 := rfl

theorem processRow_aq_eq (net : Net) (ac wc : Cache) (r : Row) :
    (processRow net ac wc r).aq =
      authorQidOf (authorStep net ac (extract_viaf_id r.author_ids)).1
        (extract_viaf_id r.author_ids) := rfl

theorem processRow_wc_eq (net : Net) (ac wc : Cache) (r : Row) :
    (processRow net ac wc r).wc =
      (workDispatch net wc (extract_viaf_id r.title_ids) (strip (pyStr r.title))
        (processRow net ac wc r).aq).1 := rfl

theorem processRow_wq_eq (net : Net) (ac wc : Cache) (r : Row) :
    (processRow net ac wc r).wq =
      (workDispatch net wc (extract_viaf_id r.title_ids) (strip (pyStr r.title))
        (processRow net ac wc r).aq).2.1 := rfl

theorem processRow_ev_eq (net : Net) (ac wc : Cache) (r : Row) :
    (processRow net ac wc r).ev =
      (authorStep net ac (extract_viaf_id r.author_ids)).2 ++
        (workDispatch net wc (extract_viaf_id r.title_ids) (strip (pyStr r.title))
          (processRow net ac wc r).aq).2.2 := rfl

theorem cacheLookup_authorStep_mono {net : Net} {ac : Cache} {k : String}
    {v : Option String} (av : Option String) (h : cacheLookup ac k = some v) :
    cacheLookup (authorStep net ac av).1 k = some v := by
  cases av with
  | none => exact h
  | some v' =>
    by_cases hc : v' = "" ∨ (cacheLookup ac v').isSome
    · rw [authorStep_skip net hc]
      exact h
    · rw [authorStep_miss net hc]
      show cacheLookup ((v', (viaf_to_wikidata net v').1) :: ac) k = some v
      rw [cacheLookup_cons]
      by_cases hk : k = v'
      · exfalso
        push_neg at hc
        rw [hk] at h
        rw [h] at hc
        exact absurd rfl hc.2
      · rw [if_neg hk]
        exact h

theorem cacheLookup_workDispatch_mono {net : Net} {wc : Cache} {k : String}
    {v : Option String} (wv : Option String) (t : String) (aq : Option String)
    (h : cacheLookup wc k = some v) :
    cacheLookup (workDispatch net wc wv t aq).1 k = some v := by
  cases hk : workKeyFrom wv t with
  | none =>
    rw [(workDispatch_spec net wc wv t aq).1 hk]
    exact h
  | some k₀ =>
    cases hq : cacheLookup wc k₀ with
    | some q =>
      rw [((workDispatch_spec net wc wv t aq).2 k₀ hk).1 q hq]
      exact h
    | none =>
      obtain ⟨res, body, heq, -, -⟩ := ((workDispatch_spec net wc wv t aq).2 k₀ hk).2 hq
      rw [heq]
      show cacheLookup ((k₀, res) :: wc) k = some v
      rw [cacheLookup_cons]
      by_cases hkk : k = k₀
      · exfalso
        rw [hkk] at h
        rw [h] at hq
        cases hq
      · rw [if_neg hkk]
        exact h

/-- After the author step of a row whose author key is `k`, the key is
cached and the row's author QID is exactly the cached value. -/
theorem authorStep_qid (net : Net) (ac : Cache) (av : Option String) (k : String)
    (hk : authorKeyFrom av = some k) :
    ∃ q, cacheLookup (authorStep net ac av).1 k = some q
      ∧ authorQidOf (authorStep net ac av).1 av = q := by
  cases av with
  | none => cases hk
  | some v =>
    simp only [authorKeyFrom] at hk
    by_cases hv : v = ""
    · rw [if_pos hv] at hk; cases hk
    · rw [if_neg hv] at hk
      have hk' : k = v := by injection hk with h'; exact h'.symm
      subst hk'
      cases hq : cacheLookup ac k with
      | some q₀ =>
        refine ⟨q₀, ?_, ?_⟩
        · rw [authorStep_skip net (Or.inr (by rw [hq]; rfl))]
          exact hq
        · rw [authorStep_skip net (Or.inr (by rw [hq]; rfl))]
          simp only [authorQidOf]
          rw [if_neg hv, hq]
          rfl
      | none =>
        have hc : ¬(k = "" ∨ (cacheLookup ac k).isSome) := by
          rintro (h' | h')
          · exact hv h'
          · rw [hq] at h'; cases h'
        refine ⟨(viaf_to_wikidata net k).1, ?_, ?_⟩
        · rw [authorStep_miss net hc]
          show cacheLookup ((k, (viaf_to_wikidata net k).1) :: ac) k = _
          rw [cacheLookup_cons, if_pos rfl]
        · rw [authorStep_miss net hc]
          simp only [authorQidOf]
          rw [if_neg hv]
          show (cacheLookup ((k, (viaf_to_wikidata net k).1) :: ac) k).join = _
          rw [cacheLookup_cons, if_pos rfl]
          rfl

/-- After the work step of a row whose work key is `k`, the key is cached
and the row's work QID is exactly the cached value. -/
theorem workDispatch_qid (net : Net) (wc : Cache) (wv : Option String)
    (t : String) (aq : Option String) (k : String)
    (hk : workKeyFrom wv t = some k) :
    ∃ q, cacheLookup (workDispatch net wc wv t aq).1 k = some q
      ∧ (workDispatch net wc wv t aq).2.1 = q := by
  cases hq : cacheLookup wc k with
  | some q₀ =>
    rw [((workDispatch_spec net wc wv t aq).2 k hk).1 q₀ hq]
    exact ⟨q₀, hq, rfl⟩
  | none =>
    obtain ⟨res, body, heq, -, -⟩ := ((workDispatch_spec net wc wv t aq).2 k hk).2 hq
    rw [heq]
    refine ⟨res, ?_, rfl⟩
    show cacheLookup ((k, res) :: wc) k = some res
    rw [cacheLookup_cons, if_pos rfl]

theorem runRows_nil (net : Net) (ac wc : Cache) :
    runRows net ac wc [] = ⟨[], [], [], ac, wc⟩ := rfl

theorem runRows_cons (net : Net) (ac wc : Cache) (r : Row) (rs : List Row) :
    runRows net ac wc (r :: rs) =
      ⟨(processRow net ac wc r).aq ::
          (runRows net (processRow net ac wc r).ac (processRow net ac wc r).wc rs).aqs,
        (processRow net ac wc r).wq ::
          (runRows net (processRow net ac wc r).ac (processRow net ac wc r).wc rs).wqs,
        (processRow net ac wc r).ev ++
          (runRows net (processRow net ac wc r).ac (processRow net ac wc r).wc rs).ev,
        (runRows net (processRow net ac wc r).ac (processRow net ac wc r).wc rs).acF,
        (runRows net (processRow net ac wc r).ac (processRow net ac wc r).wc rs).wcF⟩ := rfl

theorem runRows_lengths (net : Net) :
    ∀ (rows : List Row) (ac wc : Cache),
      (runRows net ac wc rows).aqs.length = rows.length
      ∧ (runRows net ac wc rows).wqs.length = rows.length := by
  intro rows
  induction rows with
  | nil => intro ac wc; exact ⟨rfl, rfl⟩
  | cons r rs ih =>
    intro ac wc
    rw [runRows_cons]
    obtain ⟨h1, h2⟩ := ih (processRow net ac wc r).ac (processRow net ac wc r).wc
    exact ⟨by simp [h1], by simp [h2]⟩

/-- Claim C9: the output is the input rows, in order, each with exactly the
pair of resolved QIDs appended; the two QID columns have exactly one entry
per row. -/
theorem claim9_output_frame (net : Net) (rows : List Row) :
    (main net rows).1.length = rows.length
    ∧ (main net rows).1.map Prod.fst = rows
    ∧ (main net rows).1.map (fun x => x.2) =
        (runRows net [] [] rows).aqs.zip (runRows net [] [] rows).wqs
    ∧ (runRows net [] [] rows).aqs.length = rows.length
    ∧ (runRows net [] [] rows).wqs.length = rows.length := by
  obtain ⟨h1, h2⟩ := runRows_lengths net rows [] []
  have hzip : ((runRows net [] [] rows).aqs.zip (runRows net [] [] rows).wqs).length
      = rows.length := by
    rw [List.length_zip, h1, h2, Nat.min_self]
  refine ⟨?_, ?_, ?_, h1, h2⟩
  · show (rows.zip _).length = rows.length
    rw [List.length_zip, hzip, Nat.min_self]
  · show (rows.zip _).map Prod.fst = rows
    exact List.map_fst_zip _ _ (le_of_eq hzip.symm)
  · show (rows.zip _).map (fun x => x.2) = _
    exact List.map_snd_zip _ _ (le_of_eq hzip)

/-! ### Claim C2: work VIAF reference bypasses title matching -/

theorem authorStep_query_shape (net : Net) (ac : Cache) (av : Option String)
    (q l : String) (h : Event.query q l ∈ (authorStep net ac av).2) :
    ∃ w, q = viafQueryStr w := by
  cases av with
  | none => cases h
  | some v =>
    by_cases hc : v = "" ∨ (cacheLookup ac v).isSome
    · rw [authorStep_skip net hc] at h
      cases h
    · rw [authorStep_miss net hc] at h
      rcases List.mem_cons.mp h with h' | h'
      · cases h'
      · rcases List.mem_append.mp h' with h'' | h''
        · exact ⟨v, viaf_to_wikidata_query_shape net v q l h''⟩
        · rcases List.mem_singleton.mp h''

/-- Claim C2: on a row whose work external-identifier reference extracts to
a (truthy) VIAF id `v`, the work QID comes exclusively from the VIAF query
path — the cached value for `viaf:v` or a fresh `viaf_to_wikidata`
resolution — and every network request the row issues (author or work) is
a VIAF query; the title-matching queries are never sent. -/
theorem claim2_viaf_precedence (net : Net) (ac wc : Cache) (r : Row) (v : String)
    (h : extract_viaf_id r.title_ids = some v) (hv : ¬v = "") :
    (processRow net ac wc r).wq =
      (cacheLookup wc ("viaf:" ++ v)).getD (viaf_to_wikidata net v).1
    ∧ ∀ q l, Event.query q l ∈ (processRow net ac wc r).ev →
        ∃ w, q = viafQueryStr w := by
  have hw : workDispatch net wc (extract_viaf_id r.title_ids) (strip (pyStr r.title))
      (processRow net ac wc r).aq = workViafStep net wc v := by
    rw [h]
    simp only [workDispatch]
    rw [if_neg hv]
  constructor
  · rw [processRow_wq_eq, hw]
    cases hq : cacheLookup wc ("viaf:" ++ v) with
    | some q => rw [workViafStep_hit net hq]; rfl
    | none => rw [workViafStep_miss net hq]; rfl
  · intro q l hql
    rw [processRow_ev_eq, hw] at hql
    rcases List.mem_append.mp hql with h' | h'
    · exact authorStep_query_shape net ac _ q l h'
    · cases hq : cacheLookup wc ("viaf:" ++ v) with
      | some q₀ =>
        rw [workViafStep_hit net hq] at h'
        cases h'
      | none =>
        rw [workViafStep_miss net hq] at h'
        rcases List.mem_cons.mp h' with h'' | h''
        · cases h''
        · rcases List.mem_append.mp h'' with h3 | h3
          · exact ⟨v, viaf_to_wikidata_query_shape net v q l h3⟩
          · rcases List.mem_singleton.mp h3

/-- Witness for C2 at a concrete row carrying a work VIAF reference. -/
theorem claim2_viaf_precedence_witness :
    (processRow netQ1 [] [] rowV).wq =
      (cacheLookup ([] : Cache) ("viaf:" ++ "999")).getD (viaf_to_wikidata netQ1 "999").1 :=
  (claim2_viaf_precedence netQ1 [] [] rowV "999" (by decide) (by decide)).1

/-! ### Claim C5: rate limiting -/

theorem paused_append {a b : List Event} (ha : Paused a) (hb : Paused b) :
    Paused (a ++ b) := by
  induction ha with
  | nil => exact hb
  | episode h body rest hh hbody _ ih =>
    rw [List.cons_append, List.append_assoc, List.cons_append]
    exact Paused.episode h body (rest ++ b) hh hbody ih

theorem paused_episode_simple (h : Event) (body : List Event)
    (hh : isLookupEvent h = true) (hb : ∀ e ∈ body, isNetEvent e = true) :
    Paused (h :: (body ++ [Event.sleep])) :=
  Paused.episode h body [] hh hb Paused.nil

theorem processRow_paused (net : Net) (ac wc : Cache) (r : Row) :
    Paused (processRow net ac wc r).ev := by
  rw [processRow_ev_eq]
  apply paused_append
  · cases hA : extract_viaf_id r.author_ids with
    | none => exact Paused.nil
    | some v =>
      by_cases hc : v = "" ∨ (cacheLookup ac v).isSome
      · rw [authorStep_skip net hc]
        exact Paused.nil
      · rw [authorStep_miss net hc]
        exact paused_episode_simple _ _ rfl (viaf_to_wikidata_events net v)
  · cases hk : workKeyFrom (extract_viaf_id r.title_ids) (strip (pyStr r.title)) with
    | none =>
      rw [(workDispatch_spec net wc _ _ _).1 hk]
      exact Paused.nil
    | some k =>
      cases hq : cacheLookup wc k with
      | some q =>
        rw [((workDispatch_spec net wc _ _ _).2 k hk).1 q hq]
        exact Paused.nil
      | none =>
        obtain ⟨res, body, heq, hbody, -⟩ := ((workDispatch_spec net wc _ _ _).2 k hk).2 hq
        rw [heq]
        exact paused_episode_simple _ _ rfl hbody

theorem runRows_paused (net : Net) :
    ∀ (rows : List Row) (ac wc : Cache), Paused (runRows net ac wc rows).ev := by
  intro rows
  induction rows with
  | nil => intro ac wc; exact Paused.nil
  | cons r rs ih =>
    intro ac wc
    rw [runRows_cons]
    exact paused_append (processRow_paused net ac wc r)
      (ih (processRow net ac wc r).ac (processRow net ac wc r).wc)

theorem processRow_cached_silent (net : Net) (ac wc : Cache) (r : Row)
    (hA : ∀ k, authorKeyOf r = some k → (cacheLookup ac k).isSome)
    (hW : ∀ k, workKeyOf r = some k → ∃ q, cacheLookup wc k = some q) :
    (processRow net ac wc r).ev = [] := by
  rw [processRow_ev_eq]
  have h1 : (authorStep net ac (extract_viaf_id r.author_ids)).2 = [] := by
    cases hk : authorKeyFrom (extract_viaf_id r.author_ids) with
    | none => rw [(authorStep_spec net ac _).1 hk]
    | some k =>
      rw [((authorStep_spec net ac _).2 k hk).1 (hA k hk)]
  have h2 : (workDispatch net wc (extract_viaf_id r.title_ids) (strip (pyStr r.title))
      (processRow net ac wc r).aq).2.2 = [] := by
    cases hk : workKeyFrom (extract_viaf_id r.title_ids) (strip (pyStr r.title)) with
    | none => rw [(workDispatch_spec net wc _ _ _).1 hk]
    | some k =>
      obtain ⟨q, hq⟩ := hW k hk
      rw [((workDispatch_spec net wc _ _ _).2 k hk).1 q hq]
  rw [h1, h2]
  rfl

/-- Counterexample to claim C5 as stated: on a row whose title resolution
falls through the fallback chain, the trace contains two network requests
with no pause between them (the single `time.sleep` only follows the whole
resolution), so "after every network call … a pause occurs before the next
network call" is false; the same trace shows two network events. -/
theorem claim5_counterexample :
    pausedBetweenCalls (runRows netOk [] [] [rowT]).ev = false
    ∧ (runRows netOk [] [] [rowT]).ev.countP isNetEvent = 2 := by
  refine ⟨by decide, by decide⟩

/-- Amended claim C5: the pause is per *resolution episode*, not per
network call.  Every run trace is a sequence of episodes — a progress
print, then the network events of that resolution (possibly several for
one title-resolution fallback chain, back to back), then exactly one
pause — and a row whose keys are all cached (or absent) contributes no
events, hence no pause. -/
theorem claim5_pause_per_resolution :
    (∀ (net : Net) (rows : List Row), Paused (runRows net [] [] rows).ev)
    ∧ (∀ (net : Net) (ac wc : Cache) (r : Row),
        (∀ k, authorKeyOf r = some k → (cacheLookup ac k).isSome) →
        (∀ k, workKeyOf r = some k → ∃ q, cacheLookup wc k = some q) →
        (processRow net ac wc r).ev = []) :=
  ⟨fun net rows => runRows_paused net rows [] [],
    fun net ac wc r hA hW => processRow_cached_silent net ac wc r hA hW⟩

/-- Witness for the amended C5: a row whose author key is already cached
and which has no work key emits no events at all. -/
theorem claim5_pause_per_resolution_witness :
    (processRow netQ1 [("5", some "Q1")] [] rowA).ev = [] := by
  apply claim5_pause_per_resolution.2
  · intro k hk
    have h5 : authorKeyOf rowA = some "5" := by decide
    rw [h5] at hk
    injection hk with h'
    subst h'
    decide
  · intro k hk
    have h0 : workKeyOf rowA = none := by decide
    rw [h0] at hk
    cases hk

/-! ### Claim C10: interpolated identifiers are digit strings -/

theorem isNet_not_lookupA {e : Event} (h : isNetEvent e = true) :
    ∀ v, e ≠ Event.lookupAuthor v := by
  cases e with
  | query q l => intro v h'; cases h'
  | warn m => intro v h'; cases h'
  | sleep => cases h
  | lookupAuthor w => cases h
  | lookupWork w => cases h

theorem isNet_not_lookupW {e : Event} (h : isNetEvent e = true) :
    ∀ k, e ≠ Event.lookupWork k := by
  cases e with
  | query q l => intro k h'; cases h'
  | warn m => intro k h'; cases h'
  | sleep => cases h
  | lookupAuthor w => cases h
  | lookupWork w => cases h

theorem processRow_lookupA_mem (net : Net) (ac wc : Cache) (r : Row) (v : String)
    (h : Event.lookupAuthor v ∈ (processRow net ac wc r).ev) :
    extract_viaf_id r.author_ids = some v ∧ v ≠ "" := by
  rw [processRow_ev_eq] at h
  rcases List.mem_append.mp h with h' | h'
  · cases hA : extract_viaf_id r.author_ids with
    | none => rw [hA] at h'; cases h'
    | some v₀ =>
      rw [hA] at h'
      by_cases hc : v₀ = "" ∨ (cacheLookup ac v₀).isSome
      · rw [authorStep_skip net hc] at h'
        cases h'
      · rw [authorStep_miss net hc] at h'
        rcases List.mem_cons.mp h' with h'' | h''
        · injection h'' with h3
          refine ⟨congrArg some h3.symm, ?_⟩
          intro he
          exact hc (Or.inl (h3.symm.trans he))
        · exfalso
          rcases List.mem_append.mp h'' with h3 | h3
          · have := viaf_to_wikidata_events net v₀ _ h3
            exact isNet_not_lookupA this v rfl
          · cases List.mem_singleton.mp h3
  · exfalso
    cases hk : workKeyFrom (extract_viaf_id r.title_ids) (strip (pyStr r.title)) with
    | none =>
      rw [(workDispatch_spec net wc _ _ _).1 hk] at h'
      cases h'
    | some k =>
      cases hq : cacheLookup wc k with
      | some q =>
        rw [((workDispatch_spec net wc _ _ _).2 k hk).1 q hq] at h'
        cases h'
      | none =>
        obtain ⟨res, body, heq, hbody, -⟩ := ((workDispatch_spec net wc _ _ _).2 k hk).2 hq
        rw [heq] at h'
        rcases List.mem_cons.mp h' with h'' | h''
        · cases h''
        · rcases List.mem_append.mp h'' with h3 | h3
          · exact isNet_not_lookupA (hbody _ h3) v rfl
          · cases List.mem_singleton.mp h3

theorem processRow_lookupW_mem (net : Net) (ac wc : Cache) (r : Row) (k : String)
    (h : Event.lookupWork k ∈ (processRow net ac wc r).ev) :
    workKeyOf r = some k := by
  rw [processRow_ev_eq] at h
  rcases List.mem_append.mp h with h' | h'
  · exfalso
    cases hA : extract_viaf_id r.author_ids with
    | none => rw [hA] at h'; cases h'
    | some v₀ =>
      rw [hA] at h'
      by_cases hc : v₀ = "" ∨ (cacheLookup ac v₀).isSome
      · rw [authorStep_skip net hc] at h'
        cases h'
      · rw [authorStep_miss net hc] at h'
        rcases List.mem_cons.mp h' with h'' | h''
        · cases h''
        · rcases List.mem_append.mp h'' with h3 | h3
          · exact isNet_not_lookupW (viaf_to_wikidata_events net v₀ _ h3) k rfl
          · cases List.mem_singleton.mp h3
  · cases hk : workKeyFrom (extract_viaf_id r.title_ids) (strip (pyStr r.title)) with
    | none =>
      rw [(workDispatch_spec net wc _ _ _).1 hk] at h'
      cases h'
    | some k₀ =>
      cases hq : cacheLookup wc k₀ with
      | some q =>
        rw [((workDispatch_spec net wc _ _ _).2 k₀ hk).1 q hq] at h'
        cases h'
      | none =>
        obtain ⟨res, body, heq, hbody, -⟩ := ((workDispatch_spec net wc _ _ _).2 k₀ hk).2 hq
        rw [heq] at h'
        rcases List.mem_cons.mp h' with h'' | h''
        · injection h'' with h3
          show workKeyFrom _ _ = some k
          rw [hk, h3]
        · exfalso
          rcases List.mem_append.mp h'' with h3 | h3
          · exact isNet_not_lookupW (hbody _ h3) k rfl
          · cases List.mem_singleton.mp h3

theorem runRows_lookupA_mem (net : Net) :
    ∀ (rows : List Row) (ac wc : Cache) (v : String),
      Event.lookupAuthor v ∈ (runRows net ac wc rows).ev →
      ∃ r ∈ rows, extract_viaf_id r.author_ids = some v ∧ v ≠ "" := by
  intro rows
  induction rows with
  | nil => intro ac wc v h; cases h
  | cons r rs ih =>
    intro ac wc v h
    rw [runRows_cons] at h
    rcases List.mem_append.mp h with h' | h'
    · exact ⟨r, List.mem_cons_self r rs, processRow_lookupA_mem net ac wc r v h'⟩
    · obtain ⟨r', hr', h''⟩ := ih _ _ v h'
      exact ⟨r', List.mem_cons_of_mem r hr', h''⟩

theorem runRows_lookupW_mem (net : Net) :
    ∀ (rows : List Row) (ac wc : Cache) (k : String),
      Event.lookupWork k ∈ (runRows net ac wc rows).ev →
      ∃ r ∈ rows, workKeyOf r = some k := by
  intro rows
  induction rows with
  | nil => intro ac wc k h; cases h
  | cons r rs ih =>
    intro ac wc k h
    rw [runRows_cons] at h
    rcases List.mem_append.mp h with h' | h'
    · exact ⟨r, List.mem_cons_self r rs, processRow_lookupW_mem net ac wc r k h'⟩
    · obtain ⟨r', hr', h''⟩ := ih _ _ k h'
      exact ⟨r', List.mem_cons_of_mem r hr', h''⟩

theorem string_append_left_cancel {p s t : String} (h : p ++ s = p ++ t) : s = t := by
  have hd := congrArg String.data h
  rw [String.data_append, String.data_append] at hd
  have h' := List.append_cancel_left hd
  cases s
  cases t
  exact congrArg String.mk h'

theorem title_key_ne_viaf_key (t v : String) : "title:" ++ t ≠ "viaf:" ++ v := by
  intro h
  have hd := congrArg String.data h
  rw [String.data_append, String.data_append] at hd
  rw [show "title:".data = 't' :: "itle:".data from rfl,
    show "viaf:".data = 'v' :: "iaf:".data from rfl] at hd
  rw [List.cons_append, List.cons_append] at hd
  injection hd with h1 _
  exact absurd h1 (by decide)

theorem digit_char_safe {c : Char} (h : c.isDigit = true) :
    c ≠ '\x22' ∧ c ≠ '\x5c' := by
  constructor <;> rintro rfl <;> cases h

/-- Claim C10: every identifier interpolated (unescaped) into the VIAF
query template is produced by the extraction regex, hence a nonempty string
of decimal digits containing neither a quote nor a backslash — it cannot
alter the query structure.  Parts 2 and 3 state this for every author and
every `viaf:`-tagged work resolution actually performed in a run. -/
theorem claim10_viaf_digits :
    (∀ (u : PyVal) (v : String), extract_viaf_id u = some v →
      v ≠ "" ∧ ∀ c ∈ v.data, c.isDigit = true ∧ c ≠ '\x22' ∧ c ≠ '\x5c')
    ∧ (∀ (net : Net) (rows : List Row) (v : String),
        Event.lookupAuthor v ∈ (runRows net [] [] rows).ev →
        v ≠ "" ∧ ∀ c ∈ v.data, c.isDigit = true ∧ c ≠ '\x22' ∧ c ≠ '\x5c')
    ∧ (∀ (net : Net) (rows : List Row) (k v : String),
        Event.lookupWork k ∈ (runRows net [] [] rows).ev → k = "viaf:" ++ v →
        v ≠ "" ∧ ∀ c ∈ v.data, c.isDigit = true ∧ c ≠ '\x22' ∧ c ≠ '\x5c') := by
  have base : ∀ (u : PyVal) (v : String), extract_viaf_id u = some v →
      v ≠ "" ∧ ∀ c ∈ v.data, c.isDigit = true ∧ c ≠ '\x22' ∧ c ≠ '\x5c' := by
    intro u v h
    obtain ⟨hne, hdig⟩ := extract_viaf_id_digits h
    refine ⟨hne, fun c hc => ?_⟩
    have hd := hdig c hc
    exact ⟨hd, digit_char_safe hd⟩
  refine ⟨base, ?_, ?_⟩
  · intro net rows v h
    obtain ⟨r, -, hr, -⟩ := runRows_lookupA_mem net rows [] [] v h
    exact base _ v hr
  · intro net rows k v h hk
    obtain ⟨r, -, hr⟩ := runRows_lookupW_mem net rows [] [] k h
    unfold workKeyOf at hr
    cases hE : extract_viaf_id r.title_ids with
    | none =>
      exfalso
      rw [hE] at hr
      simp only [workKeyFrom] at hr
      split at hr
      · cases hr
      · injection hr with h'
        exact title_key_ne_viaf_key _ v (h'.trans hk)
    | some v₀ =>
      rw [hE] at hr
      simp only [workKeyFrom] at hr
      by_cases hv₀ : v₀ = ""
      · exfalso
        rw [if_pos hv₀] at hr
        split at hr
        · cases hr
        · injection hr with h'
          exact title_key_ne_viaf_key _ v (h'.trans hk)
      · rw [if_neg hv₀] at hr
        injection hr with h'
        have hvv : v₀ = v := string_append_left_cancel (h'.trans hk)
        rw [← hvv]
        exact base _ v₀ hE

/-- Witness for C10 at a concrete extracted identifier. -/
theorem claim10_viaf_digits_witness :
    "12345" ≠ "" ∧ ∀ c ∈ "12345".data, c.isDigit = true ∧ c ≠ '\x22' ∧ c ≠ '\x5c' :=
  claim10_viaf_digits.1 (PyVal.str "https://viaf.org/viaf/12345/") "12345" (by decide)

/-! ### Claim C3: caching — at most one remote resolution per key -/

theorem net_not_isLookupA {e : Event} (h : isNetEvent e = true) :
    isLookupA e = false := by
  cases e with
  | query q l => rfl
  | warn m => rfl
  | sleep => cases h
  | lookupAuthor v => cases h
  | lookupWork k => cases h

theorem net_not_isLookupW {e : Event} (h : isNetEvent e = true) :
    isLookupW e = false := by
  cases e with
  | query q l => rfl
  | warn m => rfl
  | sleep => cases h
  | lookupAuthor v => cases h
  | lookupWork k => cases h

theorem netlist_counts {body : List Event} (hb : ∀ e ∈ body, isNetEvent e = true) :
    body.countP isLookupA = 0 ∧ body.countP isLookupW = 0
    ∧ (∀ k, body.count (Event.lookupAuthor k) = 0)
    ∧ (∀ k, body.count (Event.lookupWork k) = 0) := by
  refine ⟨List.countP_eq_zero.mpr ?_, List.countP_eq_zero.mpr ?_, ?_, ?_⟩
  · intro e he hA
    rw [net_not_isLookupA (hb e he)] at hA
    cases hA
  · intro e he hW
    rw [net_not_isLookupW (hb e he)] at hW
    cases hW
  · intro k
    rw [List.count_eq_zero]
    intro hm
    exact isNet_not_lookupA (hb _ hm) k rfl
  · intro k
    rw [List.count_eq_zero]
    intro hm
    exact isNet_not_lookupW (hb _ hm) k rfl

theorem cacheLookup_isSome_iff (c : Cache) (k : String) :
    (cacheLookup c k).isSome = true ↔ k ∈ cacheKeys c := by
  induction c with
  | nil =>
    simp [cacheLookup, cacheKeys]
  | cons p c ih =>
    obtain ⟨k', v⟩ := p
    rw [cacheLookup_cons]
    have hmem : k ∈ cacheKeys ((k', v) :: c) ↔ (k = k' ∨ k ∈ cacheKeys c) := by
      simp [cacheKeys]
    rw [hmem]
    by_cases hk : k = k'
    · simp [hk]
    · rw [if_neg hk, ih]
      simp [hk]

theorem card_insert_sdiff (S A : Finset String) (k : String) (hk : k ∉ A) :
    (insert k S \ A).card = 1 + (S \ insert k A).card := by
  have h1 : insert k S \ A = insert k (S \ A) := by
    ext x
    simp only [Finset.mem_sdiff, Finset.mem_insert]
    constructor
    · rintro ⟨hx | hx, hA⟩
      · exact Or.inl hx
      · exact Or.inr ⟨hx, hA⟩
    · rintro (rfl | ⟨hx, hA⟩)
      · exact ⟨Or.inl rfl, hk⟩
      · exact ⟨Or.inr hx, hA⟩
  rw [h1, Finset.sdiff_insert]
  by_cases hkT : k ∈ S \ A
  · rw [Finset.insert_eq_self.mpr hkT, Finset.card_erase_of_mem hkT]
    have hpos : 0 < (S \ A).card := Finset.card_pos.mpr ⟨k, hkT⟩
    omega
  · rw [Finset.card_insert_of_not_mem hkT, Finset.erase_eq_of_not_mem hkT]
    omega

theorem runRows_acF_mono (net : Net) :
    ∀ (rows : List Row) (ac wc : Cache) (k : String) (v : Option String),
      cacheLookup ac k = some v →
      cacheLookup (runRows net ac wc rows).acF k = some v := by
  intro rows
  induction rows with
  | nil => intro ac wc k v h; exact h
  | cons r rs ih =>
    intro ac wc k v h
    rw [runRows_cons]
    exact ih _ _ k v (by rw [processRow_ac_eq]; exact cacheLookup_authorStep_mono _ h)

theorem runRows_wcF_mono (net : Net) :
    ∀ (rows : List Row) (ac wc : Cache) (k : String) (v : Option String),
      cacheLookup wc k = some v →
      cacheLookup (runRows net ac wc rows).wcF k = some v := by
  intro rows
  induction rows with
  | nil => intro ac wc k v h; exact h
  | cons r rs ih =>
    intro ac wc k v h
    rw [runRows_cons]
    exact ih _ _ k v (by rw [processRow_wc_eq]; exact cacheLookup_workDispatch_mono _ _ _ h)

theorem runRows_ev_cons (net : Net) (ac wc : Cache) (r : Row) (rs : List Row) :
    (runRows net ac wc (r :: rs)).ev =
      (processRow net ac wc r).ev ++
        (runRows net (processRow net ac wc r).ac (processRow net ac wc r).wc rs).ev := rfl

theorem runRows_aqs_cons (net : Net) (ac wc : Cache) (r : Row) (rs : List Row) :
    (runRows net ac wc (r :: rs)).aqs =
      (processRow net ac wc r).aq ::
        (runRows net (processRow net ac wc r).ac (processRow net ac wc r).wc rs).aqs := rfl

theorem runRows_wqs_cons (net : Net) (ac wc : Cache) (r : Row) (rs : List Row) :
    (runRows net ac wc (r :: rs)).wqs =
      (processRow net ac wc r).wq ::
        (runRows net (processRow net ac wc r).ac (processRow net ac wc r).wc rs).wqs := rfl

theorem runRows_acF_cons (net : Net) (ac wc : Cache) (r : Row) (rs : List Row) :
    (runRows net ac wc (r :: rs)).acF =
      (runRows net (processRow net ac wc r).ac (processRow net ac wc r).wc rs).acF := rfl

theorem runRows_wcF_cons (net : Net) (ac wc : Cache) (r : Row) (rs : List Row) :
    (runRows net ac wc (r :: rs)).wcF =
      (runRows net (processRow net ac wc r).ac (processRow net ac wc r).wc rs).wcF := rfl

theorem insert_sdiff_mem (S A : Finset String) (k : String) (hk : k ∈ A) :
    insert k S \ A = S \ A := by
  ext x
  simp only [Finset.mem_sdiff, Finset.mem_insert]
  constructor
  · rintro ⟨rfl | hx, hA⟩
    · exact absurd hk hA
    · exact ⟨hx, hA⟩
  · rintro ⟨hx, hA⟩
    exact ⟨Or.inr hx, hA⟩

theorem workDispatch_countA (net : Net) (wc : Cache) (wv : Option String)
    (t : String) (aq : Option String) :
    (workDispatch net wc wv t aq).2.2.countP isLookupA = 0 := by
  cases hk : workKeyFrom wv t with
  | none => rw [(workDispatch_spec net wc wv t aq).1 hk]; rfl
  | some k =>
    cases hq : cacheLookup wc k with
    | some q => rw [((workDispatch_spec net wc wv t aq).2 k hk).1 q hq]; rfl
    | none =>
      obtain ⟨res, body, heq, hbody, -⟩ := ((workDispatch_spec net wc wv t aq).2 k hk).2 hq
      rw [heq]
      show (Event.lookupWork k :: (body ++ [Event.sleep])).countP isLookupA = 0
      rw [List.countP_cons, List.countP_append, (netlist_counts hbody).1]
      rfl

theorem authorStep_countW (net : Net) (ac : Cache) (av : Option String) :
    (authorStep net ac av).2.countP isLookupW = 0 := by
  cases av with
  | none => rfl
  | some v =>
    by_cases hc : v = "" ∨ (cacheLookup ac v).isSome
    · rw [authorStep_skip net hc]; rfl
    · rw [authorStep_miss net hc]
      show (Event.lookupAuthor v :: ((viaf_to_wikidata net v).2 ++ [Event.sleep])).countP
        isLookupW = 0
      rw [List.countP_cons, List.countP_append,
        (netlist_counts (viaf_to_wikidata_events net v)).2.1]
      rfl

theorem runRows_countA (net : Net) :
    ∀ (rows : List Row) (ac wc : Cache),
      (runRows net ac wc rows).ev.countP isLookupA =
        ((rows.filterMap authorKeyOf).toFinset \ cacheKeys ac).card := by
  intro rows
  induction rows with
  | nil =>
    intro ac wc
    show (0 : Nat) = _
    rw [List.filterMap_nil, List.toFinset_nil]
    simp
  | cons r rs ih =>
    intro ac wc
    have hW := workDispatch_countA net wc (extract_viaf_id r.title_ids)
      (strip (pyStr r.title)) (processRow net ac wc r).aq
    rw [runRows_ev_cons, List.countP_append, processRow_ev_eq, List.countP_append, hW]
    cases hk : authorKeyOf r with
    | none =>
      have hstep : authorStep net ac (extract_viaf_id r.author_ids) = (ac, []) :=
        (authorStep_spec net ac _).1 hk
      have hac : (processRow net ac wc r).ac = ac := by
        rw [processRow_ac_eq, hstep]
      rw [hstep, List.filterMap_cons_none hk, ih, hac]
      simp
    | some k =>
      by_cases hc : k ∈ cacheKeys ac
      · have hsome : (cacheLookup ac k).isSome := (cacheLookup_isSome_iff ac k).mpr hc
        have hstep : authorStep net ac (extract_viaf_id r.author_ids) = (ac, []) :=
          ((authorStep_spec net ac _).2 k hk).1 hsome
        have hac : (processRow net ac wc r).ac = ac := by
          rw [processRow_ac_eq, hstep]
        rw [hstep, List.filterMap_cons_some hk, List.toFinset_cons,
          insert_sdiff_mem _ _ _ hc, ih, hac]
        simp
      · have hnone : cacheLookup ac k = none :=
          Option.not_isSome_iff_eq_none.mp
            (fun hs => hc ((cacheLookup_isSome_iff ac k).mp hs))
        have hstep : authorStep net ac (extract_viaf_id r.author_ids) =
            ((k, (viaf_to_wikidata net k).1) :: ac,
              Event.lookupAuthor k :: ((viaf_to_wikidata net k).2 ++ [Event.sleep])) :=
          ((authorStep_spec net ac _).2 k hk).2 hnone
        have hac : (processRow net ac wc r).ac = (k, (viaf_to_wikidata net k).1) :: ac := by
          rw [processRow_ac_eq, hstep]
        have hkeys : cacheKeys ((k, (viaf_to_wikidata net k).1) :: ac) =
            insert k (cacheKeys ac) := by
          simp [cacheKeys]
        rw [hstep]
        have hcount : List.countP isLookupA
            ((k, (viaf_to_wikidata net k).1) :: ac,
              Event.lookupAuthor k :: ((viaf_to_wikidata net k).2 ++ [Event.sleep])).2 = 1 := by
          show List.countP isLookupA
            (Event.lookupAuthor k :: ((viaf_to_wikidata net k).2 ++ [Event.sleep])) = 1
          rw [List.countP_cons, List.countP_append,
            (netlist_counts (viaf_to_wikidata_events net k)).1]
          simp [isLookupA]
        rw [hcount, ih, hac, hkeys, List.filterMap_cons_some hk, List.toFinset_cons,
          card_insert_sdiff _ _ _ hc]

theorem runRows_countW (net : Net) :
    ∀ (rows : List Row) (ac wc : Cache),
      (runRows net ac wc rows).ev.countP isLookupW =
        ((rows.filterMap workKeyOf).toFinset \ cacheKeys wc).card := by
  intro rows
  induction rows with
  | nil =>
    intro ac wc
    show (0 : Nat) = _
    rw [List.filterMap_nil, List.toFinset_nil]
    simp
  | cons r rs ih =>
    intro ac wc
    have hA := authorStep_countW net ac (extract_viaf_id r.author_ids)
    rw [runRows_ev_cons, List.countP_append, processRow_ev_eq, List.countP_append, hA]
    cases hk : workKeyOf r with
    | none =>
      have hstep := (workDispatch_spec net wc (extract_viaf_id r.title_ids)
        (strip (pyStr r.title)) (processRow net ac wc r).aq).1 hk
      have hwc : (processRow net ac wc r).wc = wc := by
        rw [processRow_wc_eq, hstep]
      rw [hstep, List.filterMap_cons_none hk, ih, hwc]
      simp
    | some k =>
      by_cases hc : k ∈ cacheKeys wc
      · have hsome : (cacheLookup wc k).isSome := (cacheLookup_isSome_iff wc k).mpr hc
        cases hq : cacheLookup wc k with
        | none => rw [hq] at hsome; cases hsome
        | some q =>
          have hstep := ((workDispatch_spec net wc (extract_viaf_id r.title_ids)
            (strip (pyStr r.title)) (processRow net ac wc r).aq).2 k hk).1 q hq
          have hwc : (processRow net ac wc r).wc = wc := by
            rw [processRow_wc_eq, hstep]
          rw [hstep, List.filterMap_cons_some hk, List.toFinset_cons,
            insert_sdiff_mem _ _ _ hc, ih, hwc]
          simp
      · have hq : cacheLookup wc k = none :=
          Option.not_isSome_iff_eq_none.mp
            (fun hs => hc ((cacheLookup_isSome_iff wc k).mp hs))
        obtain ⟨res, body, heq, hbody, -⟩ := ((workDispatch_spec net wc
          (extract_viaf_id r.title_ids) (strip (pyStr r.title))
          (processRow net ac wc r).aq).2 k hk).2 hq
        have hwc : (processRow net ac wc r).wc = (k, res) :: wc := by
          rw [processRow_wc_eq, heq]
        have hkeys : cacheKeys ((k, res) :: wc) = insert k (cacheKeys wc) := by
          simp [cacheKeys]
        rw [heq]
        have hcount : List.countP isLookupW
            (((k, res) :: wc, res,
              Event.lookupWork k :: (body ++ [Event.sleep])) :
                Cache × Option String × List Event).2.2 = 1 := by
          show List.countP isLookupW (Event.lookupWork k :: (body ++ [Event.sleep])) = 1
          rw [List.countP_cons, List.countP_append, (netlist_counts hbody).2.1]
          simp [isLookupW]
        rw [hcount, ih, hwc, hkeys, List.filterMap_cons_some hk, List.toFinset_cons,
          card_insert_sdiff _ _ _ hc]

theorem lookupA_not_mem_work (net : Net) (wc : Cache) (wv : Option String)
    (t : String) (aq : Option String) (v : String) :
    Event.lookupAuthor v ∉ (workDispatch net wc wv t aq).2.2 := by
  intro h
  cases hk : workKeyFrom wv t with
  | none =>
    rw [(workDispatch_spec net wc wv t aq).1 hk] at h
    cases h
  | some k =>
    cases hq : cacheLookup wc k with
    | some q =>
      rw [((workDispatch_spec net wc wv t aq).2 k hk).1 q hq] at h
      cases h
    | none =>
      obtain ⟨res, body, heq, hbody, -⟩ := ((workDispatch_spec net wc wv t aq).2 k hk).2 hq
      rw [heq] at h
      rcases List.mem_cons.mp h with h' | h'
      · cases h'
      · rcases List.mem_append.mp h' with h3 | h3
        · exact isNet_not_lookupA (hbody _ h3) v rfl
        · cases List.mem_singleton.mp h3

theorem lookupW_not_mem_author (net : Net) (ac : Cache) (av : Option String)
    (k : String) : Event.lookupWork k ∉ (authorStep net ac av).2 := by
  intro h
  cases av with
  | none => cases h
  | some v =>
    by_cases hc : v = "" ∨ (cacheLookup ac v).isSome
    · rw [authorStep_skip net hc] at h
      cases h
    · rw [authorStep_miss net hc] at h
      rcases List.mem_cons.mp h with h' | h'
      · cases h'
      · rcases List.mem_append.mp h' with h3 | h3
        · exact isNet_not_lookupW (viaf_to_wikidata_events net v _ h3) k rfl
        · cases List.mem_singleton.mp h3

theorem runRows_countA_key (net : Net) :
    ∀ (rows : List Row) (ac wc : Cache) (k : String),
      ((cacheLookup ac k).isSome →
        (runRows net ac wc rows).ev.count (Event.lookupAuthor k) = 0)
      ∧ (runRows net ac wc rows).ev.count (Event.lookupAuthor k) ≤ 1 := by
  intro rows
  induction rows with
  | nil =>
    intro ac wc k
    exact ⟨fun _ => rfl, Nat.zero_le 1⟩
  | cons r rs ih =>
    intro ac wc k
    have hWzero : (workDispatch net wc (extract_viaf_id r.title_ids)
        (strip (pyStr r.title)) (processRow net ac wc r).aq).2.2.count
          (Event.lookupAuthor k) = 0 :=
      List.count_eq_zero.mpr (lookupA_not_mem_work net wc _ _ _ k)
    rw [runRows_ev_cons, List.count_append, processRow_ev_eq, List.count_append, hWzero]
    cases hk : authorKeyFrom (extract_viaf_id r.author_ids) with
    | none =>
      have hstep := (authorStep_spec net ac _).1 hk
      have hac : (processRow net ac wc r).ac = ac := by rw [processRow_ac_eq, hstep]
      rw [hstep, hac]
      have h0 : List.count (Event.lookupAuthor k) ((ac, ([] : List Event))).2 = 0 := rfl
      rw [h0]
      constructor
      · intro hs
        rw [(ih ac (processRow net ac wc r).wc k).1 hs]
      · have := (ih ac (processRow net ac wc r).wc k).2
        omega
    | some k₀ =>
      by_cases hcached : (cacheLookup ac k₀).isSome
      · have hstep := ((authorStep_spec net ac _).2 k₀ hk).1 hcached
        have hac : (processRow net ac wc r).ac = ac := by rw [processRow_ac_eq, hstep]
        rw [hstep, hac]
        have h0 : List.count (Event.lookupAuthor k) ((ac, ([] : List Event))).2 = 0 := rfl
        rw [h0]
        constructor
        · intro hs
          rw [(ih ac (processRow net ac wc r).wc k).1 hs]
        · have := (ih ac (processRow net ac wc r).wc k).2
          omega
      · have hnone : cacheLookup ac k₀ = none := Option.not_isSome_iff_eq_none.mp hcached
        have hstep := ((authorStep_spec net ac _).2 k₀ hk).2 hnone
        have hac : (processRow net ac wc r).ac =
            (k₀, (viaf_to_wikidata net k₀).1) :: ac := by
          rw [processRow_ac_eq, hstep]
        rw [hstep, hac]
        have hbodyzero : (viaf_to_wikidata net k₀).2.count (Event.lookupAuthor k) = 0 :=
          (netlist_counts (viaf_to_wikidata_events net k₀)).2.2.1 k
        by_cases hkk : k = k₀
        · subst hkk
          have hcount : List.count (Event.lookupAuthor k)
              (((k, (viaf_to_wikidata net k).1) :: ac,
                Event.lookupAuthor k ::
                  ((viaf_to_wikidata net k).2 ++ [Event.sleep])) :
                    Cache × List Event).2 = 1 := by
            show List.count (Event.lookupAuthor k)
              (Event.lookupAuthor k :: ((viaf_to_wikidata net k).2 ++ [Event.sleep])) = 1
            rw [List.count_cons, List.count_append, hbodyzero]
            simp
          rw [hcount]
          have hcache : (cacheLookup ((k, (viaf_to_wikidata net k).1) :: ac) k).isSome := by
            rw [cacheLookup_cons, if_pos rfl]
            rfl
          have hrest := (ih ((k, (viaf_to_wikidata net k).1) :: ac)
            (processRow net ac wc r).wc k).1 hcache
          rw [hrest]
          constructor
          · intro hs
            rw [hnone] at hs
            cases hs
          · omega
        · have hbeq : (Event.lookupAuthor k₀ == Event.lookupAuthor k) = false :=
            beq_eq_false_iff_ne.mpr
              (fun h => hkk (by injection h with h'; exact h'.symm))
          have hcount : List.count (Event.lookupAuthor k)
              (((k₀, (viaf_to_wikidata net k₀).1) :: ac,
                Event.lookupAuthor k₀ ::
                  ((viaf_to_wikidata net k₀).2 ++ [Event.sleep])) :
                    Cache × List Event).2 = 0 := by
            show List.count (Event.lookupAuthor k)
              (Event.lookupAuthor k₀ :: ((viaf_to_wikidata net k₀).2 ++ [Event.sleep])) = 0
            rw [List.count_cons, List.count_append, hbodyzero, hbeq]
            simp
          rw [hcount]
          constructor
          · intro hs
            have hs' : (cacheLookup ((k₀, (viaf_to_wikidata net k₀).1) :: ac) k).isSome := by
              rw [cacheLookup_cons, if_neg hkk]
              exact hs
            rw [(ih ((k₀, (viaf_to_wikidata net k₀).1) :: ac)
              (processRow net ac wc r).wc k).1 hs']
          · have := (ih ((k₀, (viaf_to_wikidata net k₀).1) :: ac)
              (processRow net ac wc r).wc k).2
            omega

theorem runRows_countW_key (net : Net) :
    ∀ (rows : List Row) (ac wc : Cache) (k : String),
      ((cacheLookup wc k).isSome →
        (runRows net ac wc rows).ev.count (Event.lookupWork k) = 0)
      ∧ (runRows net ac wc rows).ev.count (Event.lookupWork k) ≤ 1 := by
  intro rows
  induction rows with
  | nil =>
    intro ac wc k
    exact ⟨fun _ => rfl, Nat.zero_le 1⟩
  | cons r rs ih =>
    intro ac wc k
    have hAzero : (authorStep net ac (extract_viaf_id r.author_ids)).2.count
        (Event.lookupWork k) = 0 :=
      List.count_eq_zero.mpr (lookupW_not_mem_author net ac _ k)
    rw [runRows_ev_cons, List.count_append, processRow_ev_eq, List.count_append, hAzero]
    cases hk : workKeyOf r with
    | none =>
      have hstep := (workDispatch_spec net wc (extract_viaf_id r.title_ids)
        (strip (pyStr r.title)) (processRow net ac wc r).aq).1 hk
      have hwc : (processRow net ac wc r).wc = wc := by rw [processRow_wc_eq, hstep]
      rw [hstep, hwc]
      have h0 : List.count (Event.lookupWork k)
          (((wc, none, []) : Cache × Option String × List Event)).2.2 = 0 := rfl
      rw [h0]
      constructor
      · intro hs
        rw [(ih (processRow net ac wc r).ac wc k).1 hs]
      · have := (ih (processRow net ac wc r).ac wc k).2
        omega
    | some k₀ =>
      by_cases hcached : (cacheLookup wc k₀).isSome
      · cases hq : cacheLookup wc k₀ with
        | none => rw [hq] at hcached; cases hcached
        | some q =>
          have hstep := ((workDispatch_spec net wc (extract_viaf_id r.title_ids)
            (strip (pyStr r.title)) (processRow net ac wc r).aq).2 k₀ hk).1 q hq
          have hwc : (processRow net ac wc r).wc = wc := by rw [processRow_wc_eq, hstep]
          rw [hstep, hwc]
          have h0 : List.count (Event.lookupWork k)
              (((wc, q, []) : Cache × Option String × List Event)).2.2 = 0 := rfl
          rw [h0]
          constructor
          · intro hs
            rw [(ih (processRow net ac wc r).ac wc k).1 hs]
          · have := (ih (processRow net ac wc r).ac wc k).2
            omega
      · have hq : cacheLookup wc k₀ = none := Option.not_isSome_iff_eq_none.mp hcached
        obtain ⟨res, body, heq, hbody, -⟩ := ((workDispatch_spec net wc
          (extract_viaf_id r.title_ids) (strip (pyStr r.title))
          (processRow net ac wc r).aq).2 k₀ hk).2 hq
        have hwc : (processRow net ac wc r).wc = (k₀, res) :: wc := by
          rw [processRow_wc_eq, heq]
        rw [heq, hwc]
        have hbodyzero : body.count (Event.lookupWork k) = 0 :=
          (netlist_counts hbody).2.2.2 k
        by_cases hkk : k = k₀
        · subst hkk
          have hcount : List.count (Event.lookupWork k)
              ((((k, res) :: wc, res, Event.lookupWork k :: (body ++ [Event.sleep])) :
                Cache × Option String × List Event)).2.2 = 1 := by
            show List.count (Event.lookupWork k)
              (Event.lookupWork k :: (body ++ [Event.sleep])) = 1
            rw [List.count_cons, List.count_append, hbodyzero]
            simp
          rw [hcount]
          have hcache : (cacheLookup ((k, res) :: wc) k).isSome := by
            rw [cacheLookup_cons, if_pos rfl]
            rfl
          rw [(ih (processRow net ac wc r).ac ((k, res) :: wc) k).1 hcache]
          constructor
          · intro hs
            rw [hq] at hs
            cases hs
          · omega
        · have hbeq : (Event.lookupWork k₀ == Event.lookupWork k) = false :=
            beq_eq_false_iff_ne.mpr
              (fun h => hkk (by injection h with h'; exact h'.symm))
          have hcount : List.count (Event.lookupWork k)
              ((((k₀, res) :: wc, res, Event.lookupWork k₀ :: (body ++ [Event.sleep])) :
                Cache × Option String × List Event)).2.2 = 0 := by
            show List.count (Event.lookupWork k)
              (Event.lookupWork k₀ :: (body ++ [Event.sleep])) = 0
            rw [List.count_cons, List.count_append, hbodyzero, hbeq]
            simp
          rw [hcount]
          constructor
          · intro hs
            have hs' : (cacheLookup ((k₀, res) :: wc) k).isSome := by
              rw [cacheLookup_cons, if_neg hkk]
              exact hs
            rw [(ih (processRow net ac wc r).ac ((k₀, res) :: wc) k).1 hs']
          · have := (ih (processRow net ac wc r).ac ((k₀, res) :: wc) k).2
            omega

theorem runRows_aq_char (net : Net) :
    ∀ (rows : List Row) (ac wc : Cache) (i : Nat) (r : Row) (k : String),
      rows[i]? = some r → authorKeyOf r = some k →
      (runRows net ac wc rows).aqs[i]? =
        some ((cacheLookup (runRows net ac wc rows).acF k).join) := by
  intro rows
  induction rows with
  | nil =>
    intro ac wc i r k h
    rw [List.getElem?_nil] at h
    cases h
  | cons r₀ rs ih =>
    intro ac wc i r k hr hk
    cases i with
    | zero =>
      rw [List.getElem?_cons_zero] at hr
      have hr'' : r = r₀ := by injection hr with h'; exact h'.symm
      subst hr''
      rw [runRows_aqs_cons, List.getElem?_cons_zero, runRows_acF_cons]
      obtain ⟨q, hq, haq⟩ := authorStep_qid net ac (extract_viaf_id r.author_ids) k hk
      have hfin := runRows_acF_mono net rs (processRow net ac wc r).ac
        (processRow net ac wc r).wc k q (by rw [processRow_ac_eq]; exact hq)
      rw [hfin, processRow_aq_eq, haq]
      rfl
    | succ n =>
      rw [List.getElem?_cons_succ] at hr
      rw [runRows_aqs_cons, List.getElem?_cons_succ, runRows_acF_cons]
      exact ih _ _ n r k hr hk

theorem runRows_wq_char (net : Net) :
    ∀ (rows : List Row) (ac wc : Cache) (i : Nat) (r : Row) (k : String),
      rows[i]? = some r → workKeyOf r = some k →
      (runRows net ac wc rows).wqs[i]? =
        some ((cacheLookup (runRows net ac wc rows).wcF k).join) := by
  intro rows
  induction rows with
  | nil =>
    intro ac wc i r k h
    rw [List.getElem?_nil] at h
    cases h
  | cons r₀ rs ih =>
    intro ac wc i r k hr hk
    cases i with
    | zero =>
      rw [List.getElem?_cons_zero] at hr
      have hr'' : r = r₀ := by injection hr with h'; exact h'.symm
      subst hr''
      rw [runRows_wqs_cons, List.getElem?_cons_zero, runRows_wcF_cons]
      obtain ⟨q, hq, hwq⟩ := workDispatch_qid net wc (extract_viaf_id r.title_ids)
        (strip (pyStr r.title)) (processRow net ac wc r).aq k hk
      have hfin := runRows_wcF_mono net rs (processRow net ac wc r).ac
        (processRow net ac wc r).wc k q (by rw [processRow_wc_eq]; exact hq)
      rw [hfin, processRow_wq_eq, hwq]
      rfl
    | succ n =>
      rw [List.getElem?_cons_succ] at hr
      rw [runRows_wqs_cons, List.getElem?_cons_succ, runRows_wcF_cons]
      exact ih _ _ n r k hr hk

/-- Claim C3: in one run starting from empty caches, the number of author
resolutions equals the number of distinct author keys across rows, the
number of work resolutions equals the number of distinct tagged work keys,
no key is resolved more than once, and any two rows with the same key
receive the same (possibly absent) cached QID — including a cached
"looked up and found nothing". -/
theorem claim3_cache_dedup (net : Net) (rows : List Row) :
    ((runRows net [] [] rows).ev.countP isLookupA =
        (rows.filterMap authorKeyOf).toFinset.card)
    ∧ ((runRows net [] [] rows).ev.countP isLookupW =
        (rows.filterMap workKeyOf).toFinset.card)
    ∧ (∀ k, (runRows net [] [] rows).ev.count (Event.lookupAuthor k) ≤ 1)
    ∧ (∀ k, (runRows net [] [] rows).ev.count (Event.lookupWork k) ≤ 1)
    ∧ (∀ (i j : Nat) (ri rj : Row) (k : String), rows[i]? = some ri → rows[j]? = some rj →
        authorKeyOf ri = some k → authorKeyOf rj = some k →
        (runRows net [] [] rows).aqs[i]? = (runRows net [] [] rows).aqs[j]?)
    ∧ (∀ (i j : Nat) (ri rj : Row) (k : String), rows[i]? = some ri → rows[j]? = some rj →
        workKeyOf ri = some k → workKeyOf rj = some k →
        (runRows net [] [] rows).wqs[i]? = (runRows net [] [] rows).wqs[j]?) := by
  have hkeys0 : cacheKeys ([] : Cache) = ∅ := rfl
  refine ⟨?_, ?_, ?_, ?_, ?_, ?_⟩
  · rw [runRows_countA net rows [] [], hkeys0, Finset.sdiff_empty]
  · rw [runRows_countW net rows [] [], hkeys0, Finset.sdiff_empty]
  · intro k
    exact (runRows_countA_key net rows [] [] k).2
  · intro k
    exact (runRows_countW_key net rows [] [] k).2
  · intro i j ri rj k hi hj hki hkj
    rw [runRows_aq_char net rows [] [] i ri k hi hki,
      runRows_aq_char net rows [] [] j rj k hj hkj]
  · intro i j ri rj k hi hj hki hkj
    rw [runRows_wq_char net rows [] [] i ri k hi hki,
      runRows_wq_char net rows [] [] j rj k hj hkj]

/-- Witness for C3: two rows with the same author VIAF id trigger one
author resolution and receive the same QID. -/
theorem claim3_cache_dedup_witness :
    (runRows netQ1 [] [] [rowA, rowA]).ev.countP isLookupA = 1
    ∧ (runRows netQ1 [] [] [rowA, rowA]).aqs[0]? =
        (runRows netQ1 [] [] [rowA, rowA]).aqs[1]? := by
  constructor
  · rw [(claim3_cache_dedup netQ1 [rowA, rowA]).1]
    decide
  · exact (claim3_cache_dedup netQ1 [rowA, rowA]).2.2.2.2.1 0 1 rowA rowA "5"
      (by decide) (by decide) (by decide) (by decide)

end Enrich
